import Mathlib

/-!
# Verification of the VTEX IO MCP server's OpenAPI execution engine

A shallow embedding, in Lean, of the dynamic API execution core of the
`vtex-io-mcp-server-io` repository:

* `node/utils/apiExecutor.ts` — `APIExecutor` (operation resolution, parameter
  resolution, path templating, request construction) and the `mcpRouter`
  JSON-RPC envelope handling;
* `node/utils/parameterCategorizer.ts` — `categorizeParameters` and its
  operation lookup helpers;
* `node/utils/errorMapper.ts` — `mapHttpErrorToMCP` and its helpers;
* `node/utils/mcpUtils.ts` — `getValidMethodsForEndpoint`;
* `node/middlewares/mcpToolsCall.ts` and `node/middlewares/mcpToolsList.ts` —
  the MCP `tools/call` and `tools/list` middlewares.

TypeScript records with string keys are modelled as association lists,
JavaScript strings as Lean `String` / `List Char`, and `undefined` as `none`.
Caller-supplied parameter values are modelled as strings (the executor applies
`String(value)` before any value-sensitive use).  Asynchronous effects
(document-store reads, spec fetches, the outbound HTTP client) are modelled by
passing the collaborators in as functions; wall-clock timing
(`metadata.executionTime`) is elided.
-/

namespace VtexMcp

/-! ## JavaScript record and value helpers -/

/-- A JS object with string keys and string values, in insertion order. -/
abbrev Rec := List (String × String)

/-- `obj[key]` — property read; `none` models `undefined`. -/
def rlookup (r : Rec) (k : String) : Option String :=
  match r with
  | [] => none
  | (k', v) :: rest => if k' = k then some v else rlookup rest k

/-- `obj[key] = v` — update an existing key in place, otherwise append
(JS objects keep the original insertion position on overwrite). -/
def rset (r : Rec) (k v : String) : Rec :=
  match r with
  | [] => [(k, v)]
  | (k', v') :: rest => if k' = k then (k, v) :: rest else (k', v') :: rset rest k v

/-- `Object.assign(target, src)` — copy every entry of `src` over `target`. -/
def rassign (target src : Rec) : Rec :=
  src.foldl (fun t kv => rset t kv.1 kv.2) target

/-- `Object.keys(obj)`. -/
def rkeys (r : Rec) : List String := r.map Prod.fst

/-- JS truthiness of an optional string (`undefined` and `""` are falsy). -/
def strTruthy : Option String → Bool
  | some s => s ≠ ""
  | none => false

/-- `s.toLowerCase()` (character-wise ASCII lowering, as `String.toLower`
computes it; defined over `data` so that it reduces definitionally). -/
def jsToLower (s : String) : String := ⟨s.data.map Char.toLower⟩

/-- `s.toUpperCase()`. -/
def jsToUpper (s : String) : String := ⟨s.data.map Char.toUpper⟩

/-! ## Character-level string operations

The executor's path templating uses `String.prototype.includes`,
`String.prototype.replace` (string pattern: first occurrence only),
`encodeURIComponent`, and the regex `/\{[^}]+\}/g`.  These are modelled on
`List Char`. -/

/-- `'\x7b'`, the opening curly brace. -/
def lbrace : Char := '\x7b'

/-- `'\x7d'`, the closing curly brace. -/
def rbrace : Char := '\x7d'

/-- No curly brace occurs in the character list. -/
def braceFree (l : List Char) : Bool :=
  l.all fun c => c != lbrace && c != rbrace

/-- `haystack.includes(needle)` — substring test: the needle is a prefix at
some position. -/
def listIncludes (l pat : List Char) : Bool :=
  match l with
  | [] => pat.isPrefixOf []
  | c :: rest => pat.isPrefixOf (c :: rest) || listIncludes rest pat

/-- `s.replace(pat, repl)` with a string pattern — replace the first
occurrence only; if there is none, return `s` unchanged. -/
def replaceFirstChars (l pat repl : List Char) : List Char :=
  match l with
  | [] => if pat.isPrefixOf ([] : List Char) then repl else []
  | c :: rest =>
    if pat.isPrefixOf (c :: rest) then repl ++ (c :: rest).drop pat.length
    else c :: replaceFirstChars rest pat repl

/-- The scanning loop of `/\{[^}]+\}/g`, as a character-for-character state
machine.  The state is `none` outside a candidate match and `some acc` after
an opening `{`, with `acc` holding the (reversed) run of non-`}` characters
read so far; a `}` closes a nonempty run as a match, a `}` straight after
the `{` aborts the candidate (the engine resumes scanning after it — a `}`
can start no match), and every other character — `{` included, since
`[^}]+` accepts it — extends the run.  This is the regex's greedy
leftmost-match semantics: a match is a `{`, a maximal nonempty run of
non-`}` characters, and a `}`, and scanning resumes after each match. -/
def scanPHAux : List Char → Option (List Char) → List (List Char)
  | [], _ => []
  | c :: rest, none =>
      if c = lbrace then scanPHAux rest (some []) else scanPHAux rest none
  | c :: rest, some acc =>
      if c = rbrace then
        if acc.isEmpty then scanPHAux rest none
        else acc.reverse :: scanPHAux rest none
      else scanPHAux rest (some (c :: acc))

/-- All matches of the regex `/\{[^}]+\}/g` (the unresolved-placeholder
check of `buildPath`), returned as the placeholder names — the text strictly
between the braces. -/
def scanPH (l : List Char) : List (List Char) := scanPHAux l none

/-! ## `encodeURIComponent` -/

/-- Characters `encodeURIComponent` leaves as-is:
`A–Z a–z 0–9 - _ . ! ~ * ' ( )`. -/
def isUnreservedChar (c : Char) : Bool :=
  ('A' ≤ c && c ≤ 'Z') || ('a' ≤ c && c ≤ 'z') || ('0' ≤ c && c ≤ '9') ||
  c == '-' || c == '_' || c == '.' || c == '!' || c == '~' || c == '*' ||
  c == '\'' || c == '(' || c == ')'

/-- Uppercase hexadecimal digit for `n % 16`. -/
def hexDigit (n : Nat) : Char :=
  "0123456789ABCDEF".data.getD (n % 16) '0'

/-- UTF-8 encoding of a code point, as byte values. -/
def utf8Bytes (c : Char) : List Nat :=
  let v := c.toNat
  if v < 0x80 then [v]
  else if v < 0x800 then [0xC0 + v / 64, 0x80 + v % 64]
  else if v < 0x10000 then
    [0xE0 + v / 4096, 0x80 + v / 64 % 64, 0x80 + v % 64]
  else
    [0xF0 + v / 262144, 0x80 + v / 4096 % 64, 0x80 + v / 64 % 64, 0x80 + v % 64]

/-- `encodeURIComponent` on a single character. -/
def encodeChar (c : Char) : List Char :=
  if isUnreservedChar c then [c]
  else (utf8Bytes c).flatMap fun b => ['%', hexDigit (b / 16), hexDigit (b % 16)]

/-- `encodeURIComponent` on a character list. -/
def encodeURIComponentChars (l : List Char) : List Char :=
  l.flatMap encodeChar

/-- `encodeURIComponent` on a string. -/
def encodeURIComponent (s : String) : String :=
  ⟨encodeURIComponentChars s.data⟩

/-- `a || b` on an optional string (`undefined` and `""` are falsy). -/
def jsOrStr (a : Option String) (b : String) : String :=
  match a with
  | some s => if s = "" then b else s
  | none => b

/-! ## OpenAPI document model (`node/types/openapi.ts`) -/

/-- A JSON schema as used in parameter declarations (`schema` field).
`enumVals` models the `enum` property (`none` = absent; element values
modelled as strings). -/
inductive OASchema where
  | mk (type : Option String) (items : Option OASchema)
       (enumVals : Option (List String)) (format : Option String)

/-- `schema.type`. -/
def OASchema.type : OASchema → Option String
  | .mk t _ _ _ => t

/-- `schema.items`. -/
def OASchema.items : OASchema → Option OASchema
  | .mk _ i _ _ => i

/-- `schema.enum`. -/
def OASchema.enumVals : OASchema → Option (List String)
  | .mk _ _ e _ => e

/-- `schema.format`. -/
def OASchema.format : OASchema → Option String
  | .mk _ _ _ f => f

/-- An `OpenAPIParameter`: `{name, in, required, schema, description}`.
The `in` field is called `paramIn` (`in` is a Lean keyword). -/
structure OpenAPIParameter where
  name : String
  paramIn : String
  required : Bool
  schema : Option OASchema
  description : Option String

/-- An entry of an operation's `parameters` array: either a
`$ref` reference object or an inline parameter. -/
inductive SpecParam where
  | ref (target : String)
  | param (p : OpenAPIParameter)

/-- An `OpenAPIOperation` (the fields this core reads). -/
structure OpenAPIOperation where
  operationId : Option String
  parameters : Option (List SpecParam)
  summary : Option String

/-- A `PathItem`: one optional operation per HTTP verb. -/
structure PathItem where
  get : Option OpenAPIOperation
  post : Option OpenAPIOperation
  put : Option OpenAPIOperation
  patch : Option OpenAPIOperation
  delete : Option OpenAPIOperation
  head : Option OpenAPIOperation
  options : Option OpenAPIOperation

/-- `pathItem[method]` for a lowercase verb name. -/
def PathItem.verb (item : PathItem) (m : String) : Option OpenAPIOperation :=
  if m = "get" then item.get
  else if m = "post" then item.post
  else if m = "put" then item.put
  else if m = "patch" then item.patch
  else if m = "delete" then item.delete
  else if m = "head" then item.head
  else if m = "options" then item.options
  else none

/-- The verb iteration order used throughout `apiExecutor.ts`,
`parameterCategorizer.ts` and `mcpToolsList.ts`. -/
def httpMethods : List String :=
  ["get", "post", "put", "patch", "delete", "head", "options"]

/-- An `OpenAPISpec`: `paths` as an object in insertion order. -/
structure OpenAPISpec where
  paths : List (String × PathItem)

/-- `spec.paths[path]` — exact key lookup. -/
def assocPath (paths : List (String × PathItem)) (p : String) : Option PathItem :=
  match paths with
  | [] => none
  | (k, item) :: rest => if k = p then some item else assocPath rest p

/-! ## Execution errors (`APIExecutor` throws `new Error(message)`;
the constructors carry the data interpolated into each message) -/

/-- The errors thrown by `APIExecutor` before dispatch. -/
inductive ExecError where
  | operationNotFound (operationId : String)
  | pathNotFound (path : String)
  | methodNotAvailable (method path : String)
  | missingLocator
  | missingRequiredParameter (name location : String)
  | unresolvedPathParameters (names : List String)
deriving DecidableEq

/-- The exact `Error.message` strings of `apiExecutor.ts`. -/
def ExecError.message : ExecError → String
  | .operationNotFound oid =>
      "Operation '" ++ oid ++ "' not found in API specification"
  | .pathNotFound p => "Path '" ++ p ++ "' not found in API specification"
  | .methodNotAvailable m p =>
      "Method '" ++ m ++ "' not available for path '" ++ p ++ "'"
  | .missingLocator => "You must provide either operationId or method+path"
  | .missingRequiredParameter n l =>
      "Required parameter '" ++ n ++ "' (" ++ l ++ ") is missing"
  | .unresolvedPathParameters ns =>
      "Unresolved path parameters: " ++
        String.intercalate ", " (ns.map fun n => "\x7b" ++ n ++ "\x7d")

/-! ## Operation resolution (`APIExecutor.findOperation`,
`getMethodAndPath`, `findOperationByPathAndMethod`) -/

/-- `operation && operation.operationId &&
operation.operationId.toLowerCase() === targetId`. -/
def opIdMatches (op : OpenAPIOperation) (targetId : String) : Bool :=
  match op.operationId with
  | some oid => oid ≠ "" && jsToLower oid == targetId
  | none => false

/-- Inner loop of `findOperation`: scan the verbs of one path item. -/
def findInMethods (item : PathItem) (ms : List String) (targetId : String) :
    Option OpenAPIOperation :=
  match ms with
  | [] => none
  | m :: rest =>
    match item.verb m with
    | some op =>
        if opIdMatches op targetId then some op
        else findInMethods item rest targetId
    | none => findInMethods item rest targetId

/-- Outer loop of `findOperation`: scan every path entry in order. -/
def findOperationInPaths (paths : List (String × PathItem)) (targetId : String) :
    Option OpenAPIOperation :=
  match paths with
  | [] => none
  | (_, item) :: rest =>
    match findInMethods item httpMethods targetId with
    | some op => some op
    | none => findOperationInPaths rest targetId

/-- `APIExecutor.findOperation`: case-insensitive by-id lookup. -/
def findOperation (spec : OpenAPISpec) (operationId : String) :
    Option OpenAPIOperation :=
  findOperationInPaths spec.paths (jsToLower operationId)

/-- Inner loop of `getMethodAndPath`: the first verb whose operation matches. -/
def findVerbInMethods (item : PathItem) (ms : List String) (targetId : String) :
    Option String :=
  match ms with
  | [] => none
  | m :: rest =>
    match item.verb m with
    | some op =>
        if opIdMatches op targetId then some m
        else findVerbInMethods item rest targetId
    | none => findVerbInMethods item rest targetId

/-- Outer loop of `getMethodAndPath`. -/
def getMethodAndPathInPaths (paths : List (String × PathItem))
    (targetId : String) : Option (String × String) :=
  match paths with
  | [] => none
  | (p, item) :: rest =>
    match findVerbInMethods item httpMethods targetId with
    | some m => some (jsToUpper m, p)
    | none => getMethodAndPathInPaths rest targetId

/-- `APIExecutor.getMethodAndPath`: uppercased method and path for an
operation id, or a thrown `Operation ... not found` error. -/
def getMethodAndPath (spec : OpenAPISpec) (operationId : String) :
    Except ExecError (String × String) :=
  match getMethodAndPathInPaths spec.paths (jsToLower operationId) with
  | some mp => .ok mp
  | none => .error (.operationNotFound operationId)

/-- `APIExecutor.findOperationByPathAndMethod`: exact path key lookup, then
lowercase verb lookup; returns the operation with the uppercased method. -/
def findOperationByPathAndMethod (spec : OpenAPISpec) (method path : String) :
    Except ExecError (OpenAPIOperation × String × String) :=
  match assocPath spec.paths path with
  | none => .error (.pathNotFound path)
  | some item =>
    match item.verb (jsToLower method) with
    | none => .error (.methodNotAvailable (jsToUpper method) path)
    | some op => .ok (op, jsToUpper method, path)

/-! ## `APIExecutor.executeOperation` -/

/-- The options bag of `executeOperation` (`ExecuteAPIOptions`);
`body` is opaque to the core and modelled as an optional string. -/
structure ExecuteAPIOptions where
  apiGroup : String
  operationId : Option String
  method : Option String
  path : Option String
  pathParams : Rec
  queryParams : Rec
  headers : Rec
  body : Option String

/-- Lines 46–75 of `executeOperation`: resolve the operation context either
by (truthy) `operationId` or by (truthy) `method` + `path`. -/
def resolveOperation (spec : OpenAPISpec) (o : ExecuteAPIOptions) :
    Except ExecError (OpenAPIOperation × String × String) :=
  if strTruthy o.operationId then
    let opId := o.operationId.getD ""
    match findOperation spec opId with
    | none => .error (.operationNotFound opId)
    | some op =>
      match getMethodAndPath spec opId with
      | .error e => .error e
      | .ok (m, p) => .ok (op, m, p)
  else if strTruthy o.method && strTruthy o.path then
    findOperationByPathAndMethod spec (o.method.getD "") (o.path.getD "")
  else
    .error .missingLocator

/-- `APIExecutor.getParameterValue`: read the value from the bucket selected
by the parameter's `in`. -/
def getParameterValue (p : OpenAPIParameter)
    (pathParams queryParams headers : Rec) : Option String :=
  if p.paramIn = "path" then rlookup pathParams p.name
  else if p.paramIn = "query" then rlookup queryParams p.name
  else if p.paramIn = "header" then rlookup headers p.name
  else none

/-- Headers injected unconditionally by `VTEXAPIClient`, exempt from the
required-parameter check. -/
def mandatoryHeaders : List String := ["Accept", "Content-Type"]

/-- The result record of `resolveParameters`. -/
structure ResolvedParameters where
  pathParams : Rec
  queryParams : Rec
  headers : Rec
deriving DecidableEq

/-- The `for (const param of specParameters)` loop of `resolveParameters`:
`rpp`/`rqp`/`rh` are the accumulated `resolvedPathParams`,
`resolvedQueryParams` and `resolvedHeaders`. -/
def resolveParamsLoop (ps : List SpecParam) (pathParams queryParams headers : Rec)
    (rpp rqp rh : Rec) : Except ExecError (Rec × Rec × Rec) :=
  match ps with
  | [] => .ok (rpp, rqp, rh)
  | .ref _ :: rest => resolveParamsLoop rest pathParams queryParams headers rpp rqp rh
  | .param p :: rest =>
    match getParameterValue p pathParams queryParams headers with
    | some v =>
      if p.paramIn = "path" then
        resolveParamsLoop rest pathParams queryParams headers (rset rpp p.name v) rqp rh
      else if p.paramIn = "query" then
        resolveParamsLoop rest pathParams queryParams headers rpp (rset rqp p.name v) rh
      else if p.paramIn = "header" then
        resolveParamsLoop rest pathParams queryParams headers rpp rqp (rset rh p.name v)
      else
        resolveParamsLoop rest pathParams queryParams headers rpp rqp rh
    | none =>
      if p.required then
        if p.paramIn = "header" && mandatoryHeaders.contains p.name then
          resolveParamsLoop rest pathParams queryParams headers rpp rqp rh
        else
          .error (.missingRequiredParameter p.name p.paramIn)
      else
        resolveParamsLoop rest pathParams queryParams headers rpp rqp rh

/-- `APIExecutor.resolveParameters`: start from empty path/query buckets and a
copy of the caller headers, run the loop, then
`Object.assign(resolvedQueryParams, queryParams)`. -/
def resolveParameters (specParameters : List SpecParam)
    (pathParams queryParams headers : Rec) :
    Except ExecError ResolvedParameters :=
  match resolveParamsLoop specParameters pathParams queryParams headers [] [] headers with
  | .error e => .error e
  | .ok (rpp, rqp, rh) => .ok ⟨rpp, rassign rqp queryParams, rh⟩

/-- The substitution loop of `APIExecutor.buildPath`: for each supplied path
parameter, if `{key}` occurs in the current path, replace its first occurrence
with the URL-encoded value. -/
def buildPathChars (path : List Char) (pathParams : Rec) : List Char :=
  pathParams.foldl
    (fun fp kv =>
      let placeholder := lbrace :: kv.1.data ++ [rbrace]
      if listIncludes fp placeholder then
        replaceFirstChars fp placeholder (encodeURIComponentChars kv.2.data)
      else fp)
    path

/-- `APIExecutor.buildPath`: substitute, then fail on any remaining
`/\{[^}]+\}/g` match. -/
def buildPath (path : String) (pathParams : Rec) : Except ExecError String :=
  let finalPath := buildPathChars path.data pathParams
  match scanPH finalPath with
  | [] => .ok ⟨finalPath⟩
  | names => .error (.unresolvedPathParameters (names.map fun n => (⟨n⟩ : String)))

/-- The request configuration handed to `vtexApiClient.executeRequest`. -/
structure RequestConfig where
  method : String
  path : String
  headers : Rec
  query : Rec
  body : Option String
deriving DecidableEq

/-- `executeOperation` up to (and excluding) the dispatch: resolve the
operation, resolve parameters, build the final path, and assemble the request
configuration.  The HTTP client is invoked exactly when this succeeds. -/
def executeOperationCore (spec : OpenAPISpec) (o : ExecuteAPIOptions) :
    Except ExecError RequestConfig :=
  match resolveOperation spec o with
  | .error e => .error e
  | .ok (operation, resolvedMethod, resolvedPath) =>
    match resolveParameters (operation.parameters.getD [])
        o.pathParams o.queryParams o.headers with
    | .error e => .error e
    | .ok rp =>
      match buildPath resolvedPath rp.pathParams with
      | .error e => .error e
      | .ok finalPath =>
        .ok ⟨resolvedMethod, finalPath, rp.headers, rp.queryParams, o.body⟩

/-! ## Error objects and the error mapper (`node/utils/errorMapper.ts`)

A caught JS error value is modelled by the fields the mapper probes.
`error.response.data` is modelled as an object with the three probed message
fields; the sub-branch of `extractErrorMessage` that re-parses a *string*
response body as JSON is not modelled (no claim concerns message extraction
from string bodies). -/

/-- The probed fields of `error.response`. -/
structure JSErrorResponse where
  status : Option Int
  statusCode : Option Int
  dataMessage : Option String
  dataError : Option String
  dataErrorMessage : Option String
deriving DecidableEq

/-- The probed fields of a caught error value.  `metadataStatusCode` models
`error.metadata.statusCode` (`none` = no `metadata` or no `statusCode`),
`errorField` models `error.error`. -/
structure JSErrorObj where
  status : Option Int
  statusCode : Option Int
  response : Option JSErrorResponse
  metadataStatusCode : Option Int
  message : Option String
  errorField : Option String
deriving DecidableEq

/-- JS truthiness filter on an optional integer (`0` is falsy). -/
def intTruthy : Option Int → Option Int
  | some n => if n ≠ 0 then some n else none
  | none => none

/-- `extractStatusCode`: probe `error.status`, `error.statusCode`,
`error.response.status`, `error.response.statusCode`,
`error.metadata.statusCode` with truthiness tests, defaulting to 500. -/
def extractStatusCode (e : JSErrorObj) : Int :=
  match intTruthy e.status with
  | some n => n
  | none =>
  match intTruthy e.statusCode with
  | some n => n
  | none =>
  match e.response.bind fun r => intTruthy r.status with
  | some n => n
  | none =>
  match e.response.bind fun r => intTruthy r.statusCode with
  | some n => n
  | none =>
  match intTruthy e.metadataStatusCode with
  | some n => n
  | none => 500

/-- `getDefaultErrorMessage`. -/
def getDefaultErrorMessage (statusCode : Int) : String :=
  if statusCode = 400 then "Bad Request"
  else if statusCode = 401 then "Unauthorized"
  else if statusCode = 403 then "Forbidden"
  else if statusCode = 404 then "Not Found"
  else if statusCode = 405 then "Method Not Allowed"
  else if statusCode = 422 then "Unprocessable Entity"
  else if statusCode = 429 then "Too Many Requests"
  else if statusCode = 500 then "Internal Server Error"
  else if statusCode = 502 then "Bad Gateway"
  else if statusCode = 503 then "Service Unavailable"
  else if statusCode = 504 then "Gateway Timeout"
  else "HTTP Error " ++ toString statusCode

/-- `extractErrorMessage`: probe `error.message`, `error.error`,
`error.response.data.{message,error,errorMessage}` with truthiness tests,
falling back to the per-status default message. -/
def extractErrorMessage (e : JSErrorObj) (statusCode : Int) : String :=
  if strTruthy e.message then e.message.getD ""
  else if strTruthy e.errorField then e.errorField.getD ""
  else if strTruthy (e.response.bind fun r => r.dataMessage) then
    (e.response.bind fun r => r.dataMessage).getD ""
  else if strTruthy (e.response.bind fun r => r.dataError) then
    (e.response.bind fun r => r.dataError).getD ""
  else if strTruthy (e.response.bind fun r => r.dataErrorMessage) then
    (e.response.bind fun r => r.dataErrorMessage).getD ""
  else getDefaultErrorMessage statusCode

/-- `mapStatusCodeToMCP`: the fixed HTTP-status → JSON-RPC code table. -/
def mapStatusCodeToMCP (statusCode : Int) : Int :=
  if statusCode = 400 then -32602
  else if statusCode = 401 then -32600
  else if statusCode = 403 then -32600
  else if statusCode = 404 then -32602
  else if statusCode = 405 then -32601
  else if statusCode = 422 then -32602
  else if statusCode = 429 then -32603
  else if statusCode = 500 ∨ statusCode = 502 ∨ statusCode = 503 ∨ statusCode = 504 then
    -32603
  else -32603

/-- The result of `mapHttpErrorToMCP`.  `httpStatusCode` is
`data.httpStatusCode`; `data.originalError` (the error value itself) is not
carried. -/
structure MCPErrorInfo where
  code : Int
  message : String
  httpStatusCode : Int
deriving DecidableEq

/-- `mapHttpErrorToMCP`. -/
def mapHttpErrorToMCP (e : JSErrorObj) : MCPErrorInfo :=
  let statusCode := extractStatusCode e
  ⟨mapStatusCodeToMCP statusCode, extractErrorMessage e statusCode, statusCode⟩

/-! ## The full `executeOperation`, with an instrumented client -/

/-- A transport response (`response.data` opaque, as an optional string). -/
structure ClientResponse where
  data : Option String
  headers : Rec
deriving DecidableEq

/-- `response.data || response` — the extracted response payload. -/
inductive ExecData where
  | fromData (s : String)
  | raw (r : ClientResponse)
deriving DecidableEq

/-- `const data = response.data || response`. -/
def extractData (resp : ClientResponse) : ExecData :=
  match resp.data with
  | some d => if d = "" then .raw resp else .fromData d
  | none => .raw resp

/-- The `metadata` of a successful execution (`executionTime` elided). -/
structure ExecMetadata where
  apiGroup : String
  operationId : Option String
  method : String
  path : String
  contentType : String
  responseHeaders : Rec
deriving DecidableEq

/-- The `{data, metadata}` value returned by `executeOperation`. -/
structure ExecResult where
  data : ExecData
  metadata : ExecMetadata
deriving DecidableEq

/-- The value thrown by `executeOperation`'s catch block:
`{error: error.message || 'Unknown error',
  metadata: {executionTime, apiGroup, operationId}}` (time elided). -/
structure WrappedError where
  error : String
  apiGroup : String
  operationId : Option String
deriving DecidableEq

/-- `APIExecutor.executeOperation`, with the injected HTTP client passed in as
a function (a failing client rejects with a JS error value).  The second
component is the list of requests actually dispatched to the client — the spy
record: the client is called exactly on the requests listed there. -/
def executeOperation (client : RequestConfig → Except JSErrorObj ClientResponse)
    (spec : OpenAPISpec) (o : ExecuteAPIOptions) :
    Except WrappedError ExecResult × List RequestConfig :=
  match executeOperationCore spec o with
  | .error e => (.error ⟨e.message, o.apiGroup, o.operationId⟩, [])
  | .ok cfg =>
    match client cfg with
    | .error err =>
        (.error ⟨jsOrStr err.message "Unknown error", o.apiGroup, o.operationId⟩, [cfg])
    | .ok resp =>
        (.ok ⟨extractData resp,
          { apiGroup := o.apiGroup
            operationId := o.operationId
            method := cfg.method
            path := cfg.path
            contentType :=
              jsOrStr (rlookup resp.headers "content-type")
                (jsOrStr (rlookup resp.headers "Content-Type") "application/json")
            responseHeaders := resp.headers }⟩, [cfg])

/-! ## Parameter categorizer (`node/utils/parameterCategorizer.ts`) -/

/-- The result of `categorizeParameters`. -/
structure CategorizedParameters where
  pathParams : Rec
  queryParams : Rec
  headers : Rec
deriving DecidableEq

/-- The `operationOrLocator` argument: an `operationId` string or an explicit
`{method, path}` object. -/
inductive OperationLocator where
  | byId (operationId : String)
  | byMethodPath (method path : String)

/-- `parameterCategorizer.findOperation` — identical scan to
`APIExecutor.findOperation` (with an explicit `!spec.paths` guard that is
vacuous in this model). -/
def pcFindOperation (spec : OpenAPISpec) (operationId : String) :
    Option OpenAPIOperation :=
  findOperationInPaths spec.paths (jsToLower operationId)

/-- `parameterCategorizer.findOperationByPathAndMethod` — returns
`null` instead of throwing. -/
def pcFindOperationByPathAndMethod (spec : OpenAPISpec) (method path : String) :
    Option OpenAPIOperation :=
  match assocPath spec.paths path with
  | none => none
  | some item => item.verb (jsToLower method)

/-- One step of the categorization loop: the first declared (inline) parameter
whose `name` matches, if any. -/
def findParamDef (ps : List SpecParam) (paramName : String) :
    Option OpenAPIParameter :=
  match ps with
  | [] => none
  | .ref _ :: rest => findParamDef rest paramName
  | .param p :: rest =>
      if p.name = paramName then some p else findParamDef rest paramName

/-- The `for (const [paramName, paramValue] of Object.entries(providedParams))`
loop: route each provided entry per the matching declared parameter's `in`
(`path`/`query`/`header`); any other `in`, or no match, goes to `queryParams`. -/
def categorizeLoop (ps : List SpecParam) (provided : Rec)
    (acc : CategorizedParameters) : CategorizedParameters :=
  match provided with
  | [] => acc
  | (k, v) :: rest =>
    let acc' :=
      match findParamDef ps k with
      | some p =>
        if p.paramIn = "path" then
          { acc with pathParams := rset acc.pathParams k v }
        else if p.paramIn = "query" then
          { acc with queryParams := rset acc.queryParams k v }
        else if p.paramIn = "header" then
          { acc with headers := rset acc.headers k v }
        else
          { acc with queryParams := rset acc.queryParams k v }
      | none => { acc with queryParams := rset acc.queryParams k v }
    categorizeLoop ps rest acc'

/-- The operation resolution step of `categorizeParameters`
(`typeof operationOrLocator === 'string'` dispatch). -/
def categorizerOperation (spec : OpenAPISpec) (loc : OperationLocator) :
    Option OpenAPIOperation :=
  match loc with
  | .byId operationId => pcFindOperation spec operationId
  | .byMethodPath m p => pcFindOperationByPathAndMethod spec m p

/-- `categorizeParameters`: resolve the operation (by id or by method+path);
if that fails or the operation has no `parameters`, treat every provided key
as a query parameter; otherwise categorize each provided entry. -/
def categorizeParameters (spec : OpenAPISpec) (loc : OperationLocator)
    (provided : Rec) : CategorizedParameters :=
  match categorizerOperation spec loc with
  | none => ⟨[], provided, []⟩
  | some op =>
    match op.parameters with
    | none => ⟨[], provided, []⟩
    | some ps => categorizeLoop ps provided ⟨[], [], []⟩

/-! ## JSON-RPC envelopes (`node/types/mcp-protocol.ts`) -/

/-- A JSON-RPC id value as found in a parsed envelope. -/
inductive JsonId where
  | num (n : Int)
  | str (s : String)
  | null
deriving DecidableEq

/-- JS truthiness of an id value (`0`, `""` and `null` are falsy). -/
def idTruthy : JsonId → Bool
  | .num n => n ≠ 0
  | .str s => s ≠ ""
  | .null => false

/-- `requestBody.id || null` (`none` models an absent `id` property). -/
def jsFallbackId (idProp : Option JsonId) : JsonId :=
  match idProp with
  | some v => if idTruthy v then v else .null
  | none => .null

/-- `requestBody.id ?? null` — nullish coalescing keeps `0` and `""`. -/
def jsNullishId (idProp : Option JsonId) : JsonId :=
  match idProp with
  | some v => v
  | none => .null

/-- The `arguments` object of a `tools/call` request (fields this core
reads; parameter values modelled as strings, `body` opaque). -/
structure ToolArgs where
  apiGroup : Option String
  operationId : Option String
  method : Option String
  path : Option String
  parameters : Option Rec
  body : Option String
deriving DecidableEq

/-- The `params` object of a `tools/call` request. -/
structure MCPParams where
  name : Option String
  arguments : Option ToolArgs
deriving DecidableEq

/-- A parsed JSON-RPC envelope.  `id = none` models an absent `id` property
(a notification); parsed JSON cannot hold `undefined` under a present key. -/
structure MCPRequest where
  jsonrpc : String
  id : Option JsonId
  method : String
  params : Option MCPParams
deriving DecidableEq

/-- `mcpUtils.getValidMethodsForEndpoint`: the bare/`mcp/`-prefixed alias
table (`methodMap[endpoint] || []`). -/
def getValidMethodsForEndpoint (endpoint : String) : List String :=
  if endpoint = "handshake" then ["handshake", "mcp/handshake"]
  else if endpoint = "initialize" then ["initialize", "mcp/initialize"]
  else if endpoint = "tools/list" then ["tools/list", "mcp/tools/list"]
  else if endpoint = "tools/call" then ["tools/call", "mcp/tools/call"]
  else if endpoint = "resources/list" then ["resources/list", "mcp/resources/list"]
  else if endpoint = "resources/read" then ["resources/read", "mcp/resources/read"]
  else if endpoint = "notifications/initialized" then
    ["notifications/initialized", "mcp/notifications/initialized"]
  else []

/-- An early JSON-RPC error response: HTTP status plus the
`{jsonrpc, id, error: {code, message}}` body. -/
structure RpcErrorOut where
  status : Int
  id : JsonId
  code : Int
  message : String
deriving DecidableEq

/-- The envelope validation of `mcpRouter` (`apiExecutor.ts` second document,
lines 475–509): reject a non-`"2.0"` envelope with `id ?? null`; treat an
absent `id` as a notification; reject a present-but-`null` id. -/
inductive RouterValidation where
  | reject (out : RpcErrorOut)
  | proceed (isNotification : Bool)
deriving DecidableEq

/-- `mcpRouter`'s envelope/id validation. -/
def mcpRouterValidate (req : MCPRequest) : RouterValidation :=
  if req.jsonrpc ≠ "2.0" then
    .reject ⟨400, jsNullishId req.id, -32600, "Invalid Request"⟩
  else if req.id = some .null then
    .reject ⟨400, .null, -32600, "Invalid Request: id is required for requests"⟩
  else .proceed (req.id = none)

/-- The catch-all of `mcpRouter` (lines 601–616): a 500 response whose id is
`requestBody?.id || null` (so a falsy id such as `0` becomes `null`). -/
def mcpRouterCatchBody (requestBody : Option MCPRequest) : RpcErrorOut :=
  ⟨500, jsFallbackId (requestBody.bind MCPRequest.id), -32603, "Internal error"⟩

/-- The catch-all of the `mcpToolsList` middleware (lines 380–389): same
`requestBody?.id || null` fallback. -/
def mcpToolsListCatchBody (requestBody : Option MCPRequest) : RpcErrorOut :=
  ⟨500, jsFallbackId (requestBody.bind MCPRequest.id), -32603, "Internal error"⟩

/-! ## Tool schemas (`node/middlewares/mcpToolsList.ts`) -/

/-- A JSON-schema property of a tool's `inputSchema`
(`additionalProperties` flags are elided — no claim concerns them). -/
inductive PropSchema where
  | mk (type : String) (items : Option PropSchema) (description : Option String)
       (enumVals : Option (List String)) (format : Option String)

/-- The property's `type`. -/
def PropSchema.type : PropSchema → String
  | .mk t _ _ _ _ => t

/-- The property's `items`. -/
def PropSchema.items : PropSchema → Option PropSchema
  | .mk _ i _ _ _ => i

/-- The property's `description`. -/
def PropSchema.description : PropSchema → Option String
  | .mk _ _ d _ _ => d

/-- The property's `enum`. -/
def PropSchema.enumVals : PropSchema → Option (List String)
  | .mk _ _ _ e _ => e

/-- The property's `format`. -/
def PropSchema.format : PropSchema → Option String
  | .mk _ _ _ _ f => f

/-- `obj[key] = v` on a property map. -/
def aset (r : List (String × PropSchema)) (k : String) (v : PropSchema) :
    List (String × PropSchema) :=
  match r with
  | [] => [(k, v)]
  | (k', v') :: rest => if k' = k then (k, v) :: rest else (k', v') :: aset rest k v

/-- A tool's `inputSchema` (`type` is always `"object"`; `required = []`
models the `required` key being omitted). -/
structure InputSchema where
  properties : List (String × PropSchema)
  required : List String

/-- An `MCPTool`. -/
structure MCPTool where
  name : String
  description : String
  inputSchema : InputSchema

/-- The `mapType` helper of `mcpToolsList`: map an OpenAPI schema to a JSON
Schema for tool inputs. -/
def mapTypeA (s : OASchema) : PropSchema :=
  match s with
  | .mk t items _ _ =>
    let ty := t.getD ""
    if ty = "integer" ∨ ty = "number" then .mk "number" none none none none
    else if ty = "boolean" then .mk "boolean" none none none none
    else if ty = "array" then
      match items with
      | some i => .mk "array" (some (mapTypeA i)) none none none
      | none =>
          -- `mapType(schema.items || {type: 'string'})` with absent `items`
          .mk "array" (some (.mk "string" none none none none)) none none none
    else .mk "string" none none none none

/-- One row of `APISpecMetadata` as stored in the document store. -/
structure SpecMetadata where
  apiGroup : String
  version : Option String
  specUrl : String
  enabled : Bool
  description : Option String
deriving DecidableEq

/-- A stored Favorite (the fields `mcpToolsList` reads). -/
structure Favorite where
  apiGroup : String
  operationId : String
  httpMethod : Option String
  path : Option String
  description : Option String
deriving DecidableEq

/-- `new Map(specsMetadata.map(spec => [spec.apiGroup, spec]))` — on
duplicate keys the last entry wins. -/
def groupToSpecMeta (specs : List SpecMetadata) (g : String) :
    Option SpecMetadata :=
  match specs with
  | [] => none
  | m :: rest =>
    match groupToSpecMeta rest g with
    | some r => some r
    | none => if m.apiGroup = g then some m else none

/-- The per-favorite view of the prefetched `groupToSpec` map: a group is
fetched when its metadata exists, is enabled and has a (truthy) `specUrl`;
a failed fetch leaves the group out of the map. -/
def toolsListGroupSpec (specs : List SpecMetadata)
    (fetch : String → Option OpenAPISpec) (g : String) : Option OpenAPISpec :=
  match groupToSpecMeta specs g with
  | none => none
  | some meta =>
      if meta.enabled && meta.specUrl ≠ "" then fetch meta.specUrl else none

/-- Inner verb loop of the favorite's by-id operation search
(lines 252–275): first matching verb wins. -/
def findFavInMethods (item : PathItem) (ms : List String) (target : String) :
    Option (String × OpenAPIOperation) :=
  match ms with
  | [] => none
  | m :: rest =>
    match item.verb m with
    | some op =>
        if opIdMatches op target then some (m, op)
        else findFavInMethods item rest target
    | none => findFavInMethods item rest target

/-- Outer path loop of the favorite's by-id operation search: returns
`(operation, foundPath, foundMethod)`. -/
def findFavInPaths (paths : List (String × PathItem)) (target : String) :
    Option (OpenAPIOperation × String × String) :=
  match paths with
  | [] => none
  | (p, item) :: rest =>
    match findFavInMethods item httpMethods target with
    | some (m, op) => some (op, p, m)
    | none => findFavInPaths rest target

/-- Favorite operation resolution (lines 242–299): case-insensitive by-id
search, then fallback by the favorite's `httpMethod` + `path`. -/
def findFavOperation (spec : OpenAPISpec) (fav : Favorite) :
    Option (OpenAPIOperation × String × String) :=
  match findFavInPaths spec.paths (jsToLower fav.operationId) with
  | some r => some r
  | none =>
    if strTruthy fav.httpMethod && strTruthy fav.path then
      match assocPath spec.paths (fav.path.getD "") with
      | some item =>
        match item.verb (jsToLower (fav.httpMethod.getD "")) with
        | some op => some (op, fav.path.getD "", jsToLower (fav.httpMethod.getD ""))
        | none => none
      | none => none
    else none

/-- The parameter loop of the favorite tool synthesis (lines 308–327):
build `inputProperties` and `required` from the operation's `path`/`query`
parameters; a property is pushed to `required` when the parameter is
`required` or its location is `path`. -/
def buildFavSchema (ps : List SpecParam)
    (props : List (String × PropSchema)) (req : List String) :
    List (String × PropSchema) × List String :=
  match ps with
  | [] => (props, req)
  | .ref _ :: rest => buildFavSchema rest props req
  | .param p :: rest =>
    if p.paramIn ≠ "path" ∧ p.paramIn ≠ "query" then buildFavSchema rest props req
    else
      let schema := p.schema.getD (.mk (some "string") none none none)
      let mapped := mapTypeA schema
      let prop : PropSchema :=
        .mk mapped.type mapped.items
          (if strTruthy p.description then p.description else mapped.description)
          (match schema.enumVals with
           | some es => some es
           | none => mapped.enumVals)
          (if strTruthy schema.format then schema.format else mapped.format)
      buildFavSchema rest (aset props p.name prop)
        (if p.required || p.paramIn = "path" then req ++ [p.name] else req)

/-- The tool-name sanitizer: every character outside `[A-Za-z0-9_:-]`
becomes `_`. -/
def isToolNameChar (c : Char) : Bool :=
  ('A' ≤ c && c ≤ 'Z') || ('a' ≤ c && c ≤ 'z') || ('0' ≤ c && c ≤ '9') ||
  c == '_' || c == ':' || c == '-'

/-- `sanitizeName`. -/
def sanitizeName (s : String) : String :=
  ⟨s.data.map fun c => if isToolNameChar c then c else '_'⟩

/-- The favorite tool's description:
`fav.description || "Execute g.op (METHOD path)"`. -/
def favDescription (fav : Favorite) (foundPath foundMethod : String) : String :=
  jsOrStr fav.description
    ("Execute " ++ fav.apiGroup ++ "." ++ fav.operationId ++
      (if foundPath ≠ "" then
        " (" ++ jsToUpper foundMethod ++ " " ++ foundPath ++ ")"
      else ""))

/-- One iteration of the favorites loop (lines 228–349): `none` models
`continue` (missing/disabled metadata, missing spec, unresolvable
operation). -/
def favoriteTool (groupMeta : String → Option SpecMetadata)
    (groupSpec : String → Option OpenAPISpec) (fav : Favorite) :
    Option MCPTool :=
  match groupMeta fav.apiGroup with
  | none => none
  | some meta =>
    if ¬ (meta.enabled && meta.specUrl ≠ "") then none
    else
      match groupSpec fav.apiGroup with
      | none => none
      | some spec =>
        match findFavOperation spec fav with
        | none => none
        | some (op, foundPath, foundMethod) =>
          let pr := buildFavSchema (op.parameters.getD []) [] []
          some
            { name := sanitizeName (fav.apiGroup ++ "_" ++ fav.operationId)
              description := favDescription fav foundPath foundMethod
              inputSchema := ⟨pr.1, pr.2⟩ }

/-! ## The `mcpToolsList` middleware -/

/-- The fixed `vtex_api_call` tool (lines 96–134); the `apiGroup` property's
`enum` lists the stored groups. -/
def generalTool (specsMetadata : List SpecMetadata) : MCPTool :=
  { name := "vtex_api_call"
    description := "Execute any VTEX API operation call dynamically"
    inputSchema :=
      ⟨[("apiGroup", .mk "string" none
            (some "The API group (e.g., Orders, Catalog)")
            (some (specsMetadata.map SpecMetadata.apiGroup)) none),
        ("operationId", .mk "string" none
            (some "The operation ID to execute (preferred)") none none),
        ("method", .mk "string" none
            (some "HTTP method when using path-based execution")
            (some ["GET", "POST", "PUT", "PATCH", "DELETE", "HEAD", "OPTIONS"]) none),
        ("path", .mk "string" none
            (some "OpenAPI path (e.g., /api/catalog/pvt/sku/\x7bid\x7d) when not using operationId")
            none none),
        ("parameters", .mk "object" none
            (some "Parameters for the API call") none none),
        ("body", .mk "object" none
            (some "Request body for POST/PUT/PATCH operations") none none)],
       ["apiGroup"]⟩ }

/-- The fixed `vtex_api_specification` tool (lines 139–170). -/
def specTool (specsMetadata : List SpecMetadata) : MCPTool :=
  { name := "vtex_api_specification"
    description := "Retrieve the OpenAPI specification for a VTEX API operation"
    inputSchema :=
      ⟨[("apiGroup", .mk "string" none
            (some "The API group (e.g., Orders, Catalog)")
            (some (specsMetadata.map SpecMetadata.apiGroup)) none),
        ("operationId", .mk "string" none
            (some "The operation ID to lookup (preferred, falls back to method+path)")
            none none),
        ("method", .mk "string" none
            (some "HTTP method when using path-based lookup (fallback if no operationId)")
            (some ["GET", "POST", "PUT", "PATCH", "DELETE", "HEAD", "OPTIONS"]) none),
        ("path", .mk "string" none
            (some "OpenAPI path (e.g., /api/catalog/pvt/sku/\x7bid\x7d) when not using operationId")
            none none)],
       ["apiGroup"]⟩ }

/-- The per-instance MCP configuration gate. -/
structure MCPConfig where
  enabled : Bool
deriving DecidableEq

/-- The collaborators of `mcpToolsList`: stored spec metadata, stored
favorites (for this instance plus globals), and the spec fetcher
(`none` models a fetch that threw). -/
structure ToolsListDeps where
  specsMetadata : List SpecMetadata
  favorites : List Favorite
  fetchSpec : String → Option OpenAPISpec

/-- The response of `mcpToolsList`: HTTP status and JSON-RPC body. -/
inductive ToolsListBody where
  | success (id : JsonId) (tools : List MCPTool)
  | failure (id : JsonId) (code : Int) (message : String)

/-- HTTP status plus body. -/
structure ToolsListOut where
  status : Int
  body : ToolsListBody

/-- The `mcpToolsList` middleware (configuration gate, envelope validation,
method validation, then the tool list: the two fixed tools followed by one
synthesized tool per resolvable favorite). -/
def mcpToolsList (mcpConfig : Option MCPConfig) (deps : ToolsListDeps)
    (req : MCPRequest) : ToolsListOut :=
  if ¬ (match mcpConfig with | some c => c.enabled | none => false) = true then
    ⟨403, .failure (jsFallbackId req.id) (-32000)
      (match mcpConfig with
       | some _ => "MCP server is disabled for this instance"
       | none => "MCP server not found")⟩
  else if req.jsonrpc ≠ "2.0" ∨ req.id = none ∨ req.id = some .null then
    ⟨400, .failure (jsFallbackId req.id) (-32600) "Invalid Request"⟩
  else if ¬ (getValidMethodsForEndpoint "tools/list").contains req.method then
    ⟨400, .failure (jsNullishId req.id) (-32601) "Method not found"⟩
  else
    let tools :=
      generalTool deps.specsMetadata :: specTool deps.specsMetadata ::
        deps.favorites.filterMap
          (favoriteTool (groupToSpecMeta deps.specsMetadata)
            (toolsListGroupSpec deps.specsMetadata deps.fetchSpec))
    ⟨200, .success (jsNullishId req.id) tools⟩

/-! ## The `mcpToolsCall` middleware -/

/-- The collaborators of `mcpToolsCall`: metadata lookup by group, spec fetch
(which may reject with a JS error value), and the outbound HTTP client. -/
structure ToolsCallDeps where
  getAPISpecByGroup : String → Option SpecMetadata
  fetchSpecFromUrl : String → Except JSErrorObj OpenAPISpec
  client : RequestConfig → Except JSErrorObj ClientResponse

/-- The response of `mcpToolsCall`.  A success body is
`{content: [{type: 'text', text, mimeType}], isError}`. -/
inductive ToolsCallBody where
  | success (id : JsonId) (text : String) (mimeType : String) (isError : Bool)
  | failure (id : JsonId) (code : Int) (message : String)

/-- HTTP status plus body. -/
structure ToolsCallOut where
  status : Int
  body : ToolsCallBody

/-- Stands in for `JSON.stringify(result, null, 2)` on an execution result.
No claim depends on the concrete rendering, only on its being a function of
the result. -/
def serializeExecResult (r : ExecResult) : String :=
  (match r.data with
   | .fromData s => s
   | .raw resp => jsOrStr resp.data "") ++
    " @ " ++ r.metadata.method ++ " " ++ r.metadata.path

/-- Stands in for `JSON.stringify(pathResponse, null, 2)` in the
`vtex_api_specification` branch. -/
def serializePathResponse (meta : SpecMetadata) (path : String) : String :=
  meta.apiGroup ++ " " ++ (meta.version.getD "") ++ " " ++ path ++ " " ++
    (meta.description.getD "")

/-- The verb order of the `vtex_api_specification` by-id path search
(lines 431–439 — note `options` before `head`, unlike `httpMethods`). -/
def specLookupMethods : List String :=
  ["get", "post", "put", "patch", "delete", "options", "head"]

/-- The `vtex_api_specification` by-id path resolution (lines 428–453):
first path holding an operation whose `operationId` equals the target
*exactly* (case-sensitive). -/
def findPathByExactOpId (paths : List (String × PathItem)) (target : String) :
    Option String :=
  match paths with
  | [] => none
  | (p, item) :: rest =>
    if specLookupMethods.any fun m =>
        match item.verb m with
        | some op => op.operationId = some target
        | none => false then
      some p
    else findPathByExactOpId rest target

/-- The thrown `{error, metadata}` value of `executeOperation`, viewed
through the fields `mapHttpErrorToMCP` probes: no status field anywhere (its
`metadata` has no `statusCode`), no `message`, and `error.error` holding the
message string. -/
def wrappedToJSError (w : WrappedError) : JSErrorObj :=
  ⟨none, none, none, none, none, some w.error⟩

/-- The catch block of `mcpToolsCall` (lines 515–539): map the caught value,
use `mcpError.data?.httpStatusCode || 500` as the HTTP status, and echo
`requestBody?.id` unchanged. -/
def toolsCallCatch (req : MCPRequest) (err : JSErrorObj) : ToolsCallOut :=
  let mcpError := mapHttpErrorToMCP err
  let httpStatusCode :=
    if mcpError.httpStatusCode ≠ 0 then mcpError.httpStatusCode else 500
  ⟨httpStatusCode, .failure (jsNullishId req.id) mcpError.code mcpError.message⟩

/-- The `mcpToolsCall` middleware (the current version of the file — the one
accepting `method`+`path` as an alternative to `operationId`; its envelope
branch, lines 244–261, is identical to the earlier version's lines 29–46). -/
def mcpToolsCall (deps : ToolsCallDeps) (req : MCPRequest) : ToolsCallOut :=
  if req.jsonrpc ≠ "2.0" ∨ req.id = none ∨ req.id = some .null then
    ⟨400, .failure (jsFallbackId req.id) (-32600) "Invalid Request"⟩
  else if ¬ (getValidMethodsForEndpoint "tools/call").contains req.method then
    ⟨400, .failure (jsNullishId req.id) (-32601) "Method not found"⟩
  else
    let rid := jsNullishId req.id
    match req.params with
    | none => ⟨400, .failure rid (-32602) "Invalid params"⟩
    | some params =>
      if ¬ strTruthy params.name ∨ params.arguments = none then
        ⟨400, .failure rid (-32602) "Invalid params"⟩
      else
        let name := params.name.getD ""
        let args := params.arguments.getD ⟨none, none, none, none, none, none⟩
        if name ≠ "vtex_api_call" ∧ name ≠ "vtex_api_specification" then
          ⟨400, .failure rid (-32601) ("Unknown tool: " ++ name)⟩
        else if ¬ strTruthy args.operationId ∧
            ¬ (strTruthy args.method ∧ strTruthy args.path) then
          ⟨400, .failure rid (-32602)
            "You must provide either operationId or method and path"⟩
        else
          let apiGroup := args.apiGroup.getD ""
          match deps.getAPISpecByGroup apiGroup with
          | none =>
            ⟨404, .failure rid (-32602) ("API group '" ++ apiGroup ++ "' not found")⟩
          | some specMetadata =>
            match deps.fetchSpecFromUrl specMetadata.specUrl with
            | .error err => toolsCallCatch req err
            | .ok openApiSpec =>
              if name = "vtex_api_call" then
                let parameters := args.parameters.getD []
                let loc :=
                  if strTruthy args.operationId then
                    OperationLocator.byId (args.operationId.getD "")
                  else
                    OperationLocator.byMethodPath (args.method.getD "")
                      (args.path.getD "")
                let categorized := categorizeParameters openApiSpec loc parameters
                match executeOperation deps.client openApiSpec
                    ⟨apiGroup, args.operationId, args.method, args.path,
                      categorized.pathParams, categorized.queryParams,
                      categorized.headers, args.body⟩ with
                | (.error w, _) => toolsCallCatch req (wrappedToJSError w)
                | (.ok result, _) =>
                  ⟨200, .success rid (serializeExecResult result)
                    (jsOrStr (some result.metadata.contentType) "application/json")
                    false⟩
              else
                let resolvedPath : Option String :=
                  if strTruthy args.path then args.path
                  else if strTruthy args.operationId then
                    findPathByExactOpId openApiSpec.paths (args.operationId.getD "")
                  else none
                match resolvedPath with
                | none =>
                  ⟨404, .failure rid (-32602) "Path not found for the given operation"⟩
                | some rp =>
                  match assocPath openApiSpec.paths rp with
                  | none =>
                    ⟨404, .failure rid (-32602) "Path not found for the given operation"⟩
                  | some _ =>
                    ⟨200, .success rid (serializePathResponse specMetadata rp)
                      "application/json" false⟩

/-! # Claim theorems

One theorem per reviewed claim, with concrete witnesses where the theorem
carries hypotheses. -/

/-! ## Shared sample data -/

/-- A declared optional query parameter. -/
def samplePageParam : OpenAPIParameter := ⟨"page", "query", false, none, none⟩

/-- A declared required path parameter. -/
def sampleIdParam : OpenAPIParameter := ⟨"orderId", "path", true, none, none⟩

/-- A sample operation `GetOrder` with one path and one query parameter. -/
def sampleOp : OpenAPIOperation :=
  ⟨some "GetOrder", some [.param sampleIdParam, .param samplePageParam], none⟩

/-- A path item with no operations. -/
def emptyItem : PathItem := ⟨none, none, none, none, none, none, none⟩

/-- A sample document: `GET /orders/{orderId}` with operation `GetOrder`. -/
def sampleSpec : OpenAPISpec :=
  ⟨[("/orders/\x7borderId\x7d", { emptyItem with get := some sampleOp })]⟩

/-! ## C5 — by-id lookup is casing-invariant -/

/-- C5: for every parsed document and every operationId that exists in it
under any casing, the by-id operation lookup (both the `APIExecutor` copy and
the `parameterCategorizer` copy) returns the same operation for every casing
variant of the input id. -/
theorem C5_operation_lookup_case_insensitive (spec : OpenAPISpec)
    (id₁ id₂ : String) (_hex : ∃ op, findOperation spec id₁ = some op)
    (hcase : jsToLower id₁ = jsToLower id₂) :
    findOperation spec id₁ = findOperation spec id₂ ∧
    pcFindOperation spec id₁ = pcFindOperation spec id₂ := by
  unfold findOperation pcFindOperation
  rw [hcase]
  exact ⟨rfl, rfl⟩

/-- C5 witness: `getorder` and `GETORDER` both resolve `GetOrder` in the
sample document. -/
theorem C5_operation_lookup_case_insensitive_witness :
    findOperation sampleSpec "getorder" = findOperation sampleSpec "GETORDER" ∧
    pcFindOperation sampleSpec "getorder" = pcFindOperation sampleSpec "GETORDER" :=
  C5_operation_lookup_case_insensitive sampleSpec "getorder" "GETORDER"
    ⟨sampleOp, rfl⟩ rfl

/-! ## C3 — error mapper (corrected: the probe takes the first *truthy*
status, not the first *present* one) -/

/-- The claim's reading of status extraction, following the spec's words:
take the first probed field that is *present* ("defaulting to 500 when none
is present").  To be compared against the source's `extractStatusCode`,
which instead skips falsy values such as `0`. -/
def specExtractStatusCode (e : JSErrorObj) : Int :=
  match e.status with
  | some n => n
  | none =>
  match e.statusCode with
  | some n => n
  | none =>
  match e.response.bind fun r => r.status with
  | some n => n
  | none =>
  match e.response.bind fun r => r.statusCode with
  | some n => n
  | none =>
  match e.metadataStatusCode with
  | some n => n
  | none => 500

/-- The five probed status locations, in probe order. -/
def statusProbes (e : JSErrorObj) : List (Option Int) :=
  [e.status, e.statusCode, e.response.bind fun r => r.status,
   e.response.bind fun r => r.statusCode, e.metadataStatusCode]

/-- An error value whose `status` is present but `0` (falsy) with
`statusCode` 404: the code skips the `0` and maps 404 to -32602, while the
claim's presence-based probing would extract `0` and map it to -32603. -/
def zeroStatusError : JSErrorObj := ⟨some 0, some 404, none, none, none, none⟩

/-- C3 counterexample: on `{status: 0, statusCode: 404}` the claim's
presence-based extraction yields `0` (hence -32603 by the stated table), but
`mapHttpErrorToMCP` returns -32602 because `extractStatusCode` skips the
falsy `0` and takes the 404. -/
theorem C3_counterexample_zero_status :
    specExtractStatusCode zeroStatusError = 0 ∧
    mapStatusCodeToMCP (specExtractStatusCode zeroStatusError) = -32603 ∧
    extractStatusCode zeroStatusError = 404 ∧
    (mapHttpErrorToMCP zeroStatusError).code = -32602 ∧
    extractStatusCode zeroStatusError ≠ specExtractStatusCode zeroStatusError := by
  decide

/-- C3 amended: `mapHttpErrorToMCP` extracts the HTTP status as the first
probed value among `error.status`, `error.statusCode`,
`error.response.status`, `error.response.statusCode`,
`error.metadata.statusCode` (in that order) that is present *and truthy*
(nonzero), defaulting to 500 when there is none; the code table is as the
claim states it: -32602 for 400/404/422, -32600 for 401/403, -32601 for 405,
and -32603 for every other status (including 429, 500, 502, 503, 504). -/
theorem C3_status_extraction_and_mapping (e : JSErrorObj) :
    extractStatusCode e = ((statusProbes e).filterMap intTruthy).headD 500 ∧
    (mapHttpErrorToMCP e).code =
      (if extractStatusCode e = 400 ∨ extractStatusCode e = 404 ∨
          extractStatusCode e = 422 then -32602
       else if extractStatusCode e = 401 ∨ extractStatusCode e = 403 then -32600
       else if extractStatusCode e = 405 then -32601
       else -32603) := by
  have step : ∀ (o : Option Int) (l : List (Option Int)) (d : Int),
      ((o :: l).filterMap intTruthy).headD d =
        (match intTruthy o with
         | some n => n
         | none => (l.filterMap intTruthy).headD d) := by
    intro o l d
    cases h : intTruthy o <;> simp [List.filterMap_cons, h]
  constructor
  · rcases e with ⟨s, sc, resp, msc, m, ef⟩
    simp only [statusProbes, step, List.filterMap_nil, List.headD_nil]
    unfold extractStatusCode
    cases resp <;> rfl
  · show mapStatusCodeToMCP (extractStatusCode e) = _
    unfold mapStatusCodeToMCP
    split_ifs <;> first | rfl | omega

/-! ## C4 — parameter categorization routes every key and drops none -/

/-- The destination bucket of a provided key under the categorization rules:
the matching declared parameter's `in` when it is `path`/`query`/`header`,
and `query` for any other `in` value or when no declared parameter matches. -/
def routeOf (ps : List SpecParam) (k : String) : String :=
  match findParamDef ps k with
  | some p =>
      if p.paramIn = "path" ∨ p.paramIn = "query" ∨ p.paramIn = "header" then
        p.paramIn
      else "query"
  | none => "query"

/-- `routeOf` always lands in one of the three buckets. -/
theorem routeOf_cases (ps : List SpecParam) (k : String) :
    routeOf ps k = "path" ∨ routeOf ps k = "query" ∨ routeOf ps k = "header" := by
  unfold routeOf
  rcases h : findParamDef ps k with _ | p <;> simp only [h]
  · simp
  · split_ifs with hin
    · rcases hin with h1 | h1 | h1 <;> simp [h1]
    · simp

/-- Writing a fresh key appends it. -/
theorem rset_fresh (r : Rec) (k v : String) (h : k ∉ rkeys r) :
    rset r k v = r ++ [(k, v)] := by
  induction r with
  | nil => rfl
  | cons kv rest ih =>
    obtain ⟨k', v'⟩ := kv
    simp only [rkeys, List.map_cons, List.mem_cons, not_or] at h
    have hne : k' ≠ k := fun hc => h.1 hc.symm
    simp only [rset, if_neg hne, List.cons_append]
    exact congrArg _ (ih (by simpa [rkeys] using h.2))

/-- The categorization loop appends each provided entry, in order, to the
bucket chosen by `routeOf`. -/
theorem categorizeLoop_eq (ps : List SpecParam) :
    ∀ (provided : Rec) (acc : CategorizedParameters),
    (∀ kv ∈ provided, kv.1 ∉ rkeys acc.pathParams ∧
      kv.1 ∉ rkeys acc.queryParams ∧ kv.1 ∉ rkeys acc.headers) →
    (provided.map Prod.fst).Nodup →
    categorizeLoop ps provided acc =
      ⟨acc.pathParams ++ provided.filter (fun kv => routeOf ps kv.1 == "path"),
       acc.queryParams ++ provided.filter (fun kv => routeOf ps kv.1 == "query"),
       acc.headers ++ provided.filter (fun kv => routeOf ps kv.1 == "header")⟩ := by
  intro provided
  induction provided with
  | nil => intro acc _ _; simp [categorizeLoop]
  | cons kv rest ih =>
    intro acc hfresh hnodup
    obtain ⟨k, v⟩ := kv
    have hk : k ∉ rkeys acc.pathParams ∧ k ∉ rkeys acc.queryParams ∧
        k ∉ rkeys acc.headers := hfresh (k, v) (List.mem_cons_self _ _)
    have hnd' : (rest.map Prod.fst).Nodup := (List.nodup_cons.mp hnodup).2
    have hkrest : k ∉ rest.map Prod.fst := (List.nodup_cons.mp hnodup).1
    have hfreshRest : ∀ kv' ∈ rest, kv'.1 ∉ rkeys acc.pathParams ∧
        kv'.1 ∉ rkeys acc.queryParams ∧ kv'.1 ∉ rkeys acc.headers :=
      fun kv' h' => hfresh kv' (List.mem_cons_of_mem _ h')
    have hext : ∀ b : Rec, (∀ kv' ∈ rest, kv'.1 ∉ rkeys b) →
        ∀ kv' ∈ rest, kv'.1 ∉ rkeys (b ++ [(k, v)]) := by
      intro b hb kv' hkv'
      simp only [rkeys, List.map_append, List.map_cons, List.map_nil,
        List.mem_append, List.mem_cons, List.not_mem_nil, or_false, not_or]
      refine ⟨by simpa [rkeys] using hb kv' hkv', ?_⟩
      intro hc
      exact hkrest (hc ▸ List.mem_map_of_mem Prod.fst hkv')
    have ihPath := ih { acc with pathParams := acc.pathParams ++ [(k, v)] }
      (fun kv' h' => ⟨hext _ (fun a b => (hfreshRest a b).1) kv' h',
        (hfreshRest kv' h').2.1, (hfreshRest kv' h').2.2⟩) hnd'
    have ihQuery := ih { acc with queryParams := acc.queryParams ++ [(k, v)] }
      (fun kv' h' => ⟨(hfreshRest kv' h').1,
        hext _ (fun a b => (hfreshRest a b).2.1) kv' h',
        (hfreshRest kv' h').2.2⟩) hnd'
    have ihHeader := ih { acc with headers := acc.headers ++ [(k, v)] }
      (fun kv' h' => ⟨(hfreshRest kv' h').1, (hfreshRest kv' h').2.1,
        hext _ (fun a b => (hfreshRest a b).2.2) kv' h'⟩) hnd'
    simp only [categorizeLoop]
    rcases hfp : findParamDef ps k with _ | p <;> simp only [hfp]
    · have hr : routeOf ps k = "query" := by unfold routeOf; rw [hfp]
      rw [rset_fresh _ _ _ hk.2.1, ihQuery]
      simp [List.filter_cons, hr, List.append_assoc]
    · by_cases h1 : p.paramIn = "path"
      · have hr : routeOf ps k = "path" := by unfold routeOf; rw [hfp]; simp [h1]
        simp only [if_pos h1]
        rw [rset_fresh _ _ _ hk.1, ihPath]
        simp [List.filter_cons, hr, List.append_assoc]
      · by_cases h2 : p.paramIn = "query"
        · have hr : routeOf ps k = "query" := by
            unfold routeOf; rw [hfp]; simp [h2]
          simp only [if_neg h1, if_pos h2]
          rw [rset_fresh _ _ _ hk.2.1, ihQuery]
          simp [List.filter_cons, hr, List.append_assoc]
        · by_cases h3 : p.paramIn = "header"
          · have hr : routeOf ps k = "header" := by
              unfold routeOf; rw [hfp]; simp [h3]
            simp only [if_neg h1, if_neg h2, if_pos h3]
            rw [rset_fresh _ _ _ hk.2.2, ihHeader]
            simp [List.filter_cons, hr, List.append_assoc]
          · have hr : routeOf ps k = "query" := by
              unfold routeOf; rw [hfp]; simp [h1, h2, h3]
            simp only [if_neg h1, if_neg h2, if_neg h3]
            rw [rset_fresh _ _ _ hk.2.1, ihQuery]
            simp [List.filter_cons, hr, List.append_assoc]

/-- C4: if the operation cannot be resolved or declares no parameters,
`categorizeParameters` returns every provided key as a query parameter (with
empty path params and headers); otherwise every provided entry goes to the
bucket selected by the matching declared parameter's `in` — with any other
`in` value (e.g. `cookie`) and unmatched keys falling back to `queryParams`
(`routeOf`) — and no entry of the input bag is ever dropped. -/
theorem C4_categorize_parameters_total (spec : OpenAPISpec)
    (loc : OperationLocator) (args : Rec) (hnodup : (rkeys args).Nodup) :
    (categorizerOperation spec loc = none →
      categorizeParameters spec loc args = ⟨[], args, []⟩) ∧
    (∀ op, categorizerOperation spec loc = some op → op.parameters = none →
      categorizeParameters spec loc args = ⟨[], args, []⟩) ∧
    (∀ op ps, categorizerOperation spec loc = some op → op.parameters = some ps →
      categorizeParameters spec loc args =
        ⟨args.filter (fun kv => routeOf ps kv.1 == "path"),
         args.filter (fun kv => routeOf ps kv.1 == "query"),
         args.filter (fun kv => routeOf ps kv.1 == "header")⟩) ∧
    (∀ kv ∈ args,
      kv ∈ (categorizeParameters spec loc args).pathParams ∨
      kv ∈ (categorizeParameters spec loc args).queryParams ∨
      kv ∈ (categorizeParameters spec loc args).headers) := by
  have hmain : ∀ ps, categorizeLoop ps args ⟨[], [], []⟩ =
      ⟨args.filter (fun kv => routeOf ps kv.1 == "path"),
       args.filter (fun kv => routeOf ps kv.1 == "query"),
       args.filter (fun kv => routeOf ps kv.1 == "header")⟩ := by
    intro ps
    simpa using categorizeLoop_eq ps args ⟨[], [], []⟩ (by simp [rkeys]) hnodup
  refine ⟨?_, ?_, ?_, ?_⟩
  · intro h
    simp only [categorizeParameters, h]
  · intro op h hp
    simp only [categorizeParameters, h, hp]
  · intro op ps h hp
    simp only [categorizeParameters, h, hp]
    exact hmain ps
  · intro kv hkv
    simp only [categorizeParameters]
    rcases h : categorizerOperation spec loc with _ | op <;> simp only [h]
    · exact Or.inr (Or.inl hkv)
    · rcases hp : op.parameters with _ | ps <;> simp only [hp]
      · exact Or.inr (Or.inl hkv)
      · rw [hmain ps]
        rcases routeOf_cases ps kv.1 with hr | hr | hr
        · exact Or.inl (List.mem_filter.mpr ⟨hkv, by simp [hr]⟩)
        · exact Or.inr (Or.inl (List.mem_filter.mpr ⟨hkv, by simp [hr]⟩))
        · exact Or.inr (Or.inr (List.mem_filter.mpr ⟨hkv, by simp [hr]⟩))

/-- C4 witness: against the sample document's `GetOrder`, the declared path
parameter goes to `pathParams`, the declared query parameter and an
undeclared key both go to `queryParams`, and nothing is dropped. -/
theorem C4_categorize_parameters_total_witness :
    categorizeParameters sampleSpec (.byId "GetOrder")
        [("orderId", "5"), ("page", "2"), ("junk", "j")] =
      ⟨[("orderId", "5")], [("page", "2"), ("junk", "j")], []⟩ := by
  have h := (C4_categorize_parameters_total sampleSpec (.byId "GetOrder")
    [("orderId", "5"), ("page", "2"), ("junk", "j")] (by decide)).2.2.1
    sampleOp [.param sampleIdParam, .param samplePageParam] rfl rfl
  rw [h]
  decide

/-! ## C1 — a missing required parameter aborts before any dispatch -/

/-- A parameter is exempt from the required-parameter check exactly when it
is a header named `Accept` or `Content-Type`. -/
def requiredExempt (p : OpenAPIParameter) : Prop :=
  p.paramIn = "header" ∧ (p.name = "Accept" ∨ p.name = "Content-Type")

instance (p : OpenAPIParameter) : Decidable (requiredExempt p) := by
  unfold requiredExempt; infer_instance

/-- One step of the parameter loop either continues with some accumulators —
in which case the head parameter is not a required-missing-non-exempt one —
or stops with a `missingRequiredParameter` error naming the head. -/
theorem resolveParamsLoop_step (p : OpenAPIParameter) (rest : List SpecParam)
    (pp qp hd rpp rqp rh : Rec) :
    (¬(getParameterValue p pp qp hd = none ∧ p.required = true ∧
        ¬requiredExempt p) ∧
      ∃ rpp' rqp' rh',
        resolveParamsLoop (.param p :: rest) pp qp hd rpp rqp rh =
          resolveParamsLoop rest pp qp hd rpp' rqp' rh') ∨
    (getParameterValue p pp qp hd = none ∧ p.required = true ∧
      ¬requiredExempt p ∧
      resolveParamsLoop (.param p :: rest) pp qp hd rpp rqp rh =
        .error (.missingRequiredParameter p.name p.paramIn)) := by
  rcases hval : getParameterValue p pp qp hd with _ | v
  · by_cases hreq : p.required = true
    · by_cases hex : requiredExempt p
      · left
        refine ⟨fun hcon => hcon.2.2 hex, rpp, rqp, rh, ?_⟩
        obtain ⟨hh, hn⟩ := hex
        simp only [resolveParamsLoop, hval, hreq, if_true]
        rcases hn with hn | hn <;> simp [hh, hn, mandatoryHeaders, List.contains]
      · right
        refine ⟨rfl, hreq, hex, ?_⟩
        have hguard :
            (decide (p.paramIn = "header") && mandatoryHeaders.contains p.name)
              = false := by
          unfold requiredExempt at hex
          simp only [mandatoryHeaders, List.contains] at *
          by_cases hh : p.paramIn = "header" <;> simp [hh] at hex ⊢
          · tauto
        simp only [resolveParamsLoop, hval, hreq, if_true, hguard,
          Bool.false_eq_true, if_false]
    · left
      refine ⟨fun hcon => hreq hcon.2.1, rpp, rqp, rh, ?_⟩
      simp [resolveParamsLoop, hval, hreq]
  · left
    refine ⟨fun hcon => by simp [hval] at hcon, ?_⟩
    simp only [resolveParamsLoop, hval]
    split_ifs <;> exact ⟨_, _, _, rfl⟩

/-- If some declared parameter is required, missing and non-exempt, the
parameter loop fails with `missingRequiredParameter`, naming such a
parameter and its location. -/
theorem resolveParamsLoop_missing (pp qp hd : Rec) :
    ∀ (ps : List SpecParam) (rpp rqp rh : Rec),
    (∃ p : OpenAPIParameter, SpecParam.param p ∈ ps ∧ p.required = true ∧
      getParameterValue p pp qp hd = none ∧ ¬requiredExempt p) →
    ∃ q : OpenAPIParameter, SpecParam.param q ∈ ps ∧ q.required = true ∧
      getParameterValue q pp qp hd = none ∧ ¬requiredExempt q ∧
      resolveParamsLoop ps pp qp hd rpp rqp rh =
        .error (.missingRequiredParameter q.name q.paramIn) := by
  intro ps
  induction ps with
  | nil =>
    intro rpp rqp rh hex
    obtain ⟨p, hmem, _⟩ := hex
    exact absurd hmem (List.not_mem_nil _)
  | cons sp rest ih =>
    intro rpp rqp rh hex
    cases sp with
    | ref t =>
      obtain ⟨p, hmem, h2, h3, h4⟩ := hex
      have hmem' : SpecParam.param p ∈ rest := by
        rcases List.mem_cons.mp hmem with hc | hc
        · cases hc
        · exact hc
      obtain ⟨q, hq1, hq2, hq3, hq4, hq5⟩ := ih rpp rqp rh ⟨p, hmem', h2, h3, h4⟩
      exact ⟨q, List.mem_cons_of_mem _ hq1, hq2, hq3, hq4, by
        simpa only [resolveParamsLoop] using hq5⟩
    | param pHead =>
      rcases resolveParamsLoop_step pHead rest pp qp hd rpp rqp rh with
        ⟨hnot, rpp', rqp', rh', hstep⟩ | ⟨h1, h2, h3, hstep⟩
      · obtain ⟨p, hmem, hb2, hb3, hb4⟩ := hex
        have hmem' : SpecParam.param p ∈ rest := by
          rcases List.mem_cons.mp hmem with hc | hc
          · injection hc with hc'
            exact absurd ⟨hc' ▸ hb3, hc' ▸ hb2, hc' ▸ hb4⟩ hnot
          · exact hc
        obtain ⟨q, hq1, hq2, hq3, hq4, hq5⟩ :=
          ih rpp' rqp' rh' ⟨p, hmem', hb2, hb3, hb4⟩
        exact ⟨q, List.mem_cons_of_mem _ hq1, hq2, hq3, hq4, hstep.trans hq5⟩
      · exact ⟨pHead, List.mem_cons_self _ _, h2, h1, h3, hstep⟩

/-- C1: for every declared non-reference parameter of the resolved operation
that is `required`, located in `path`/`query`/`header`, absent from the
corresponding caller-supplied bucket (which is what `getParameterValue`
reads), and not an exempt mandatory header (`Accept`/`Content-Type`),
`executeOperation` fails with a `MissingRequiredParameter` error naming a
required, absent, non-exempt parameter and its location — and the injected
HTTP client is never called (the spy record of dispatched requests is
empty). -/
theorem C1_missing_required_parameter_aborts (spec : OpenAPISpec)
    (o : ExecuteAPIOptions) (client : RequestConfig → Except JSErrorObj ClientResponse)
    (op : OpenAPIOperation) (m pth : String)
    (hres : resolveOperation spec o = .ok (op, m, pth))
    (p : OpenAPIParameter)
    (hp : SpecParam.param p ∈ op.parameters.getD [])
    (hreq : p.required = true)
    (_hloc : p.paramIn = "path" ∨ p.paramIn = "query" ∨ p.paramIn = "header")
    (habsent : getParameterValue p o.pathParams o.queryParams o.headers = none)
    (hexempt : ¬requiredExempt p) :
    ∃ q : OpenAPIParameter, SpecParam.param q ∈ op.parameters.getD [] ∧
      q.required = true ∧
      getParameterValue q o.pathParams o.queryParams o.headers = none ∧
      ¬requiredExempt q ∧
      executeOperationCore spec o =
        .error (.missingRequiredParameter q.name q.paramIn) ∧
      executeOperation client spec o =
        (.error ⟨(ExecError.missingRequiredParameter q.name q.paramIn).message,
          o.apiGroup, o.operationId⟩, []) := by
  obtain ⟨q, hq1, hq2, hq3, hq4, hq5⟩ :=
    resolveParamsLoop_missing o.pathParams o.queryParams o.headers
      (op.parameters.getD []) [] [] o.headers ⟨p, hp, hreq, habsent, hexempt⟩
  have hcore : executeOperationCore spec o =
      .error (.missingRequiredParameter q.name q.paramIn) := by
    simp only [executeOperationCore, hres, resolveParameters, hq5]
  refine ⟨q, hq1, hq2, hq3, hq4, hcore, ?_⟩
  simp only [executeOperation, hcore]

/-- The sample call that omits the required `orderId` path parameter. -/
def sampleMissingOpts : ExecuteAPIOptions :=
  ⟨"oms", some "GetOrder", none, none, [], [("page", "1")], [], none⟩

/-- A trivially succeeding HTTP client. -/
def sampleClient : RequestConfig → Except JSErrorObj ClientResponse :=
  fun _ => .ok ⟨none, []⟩

/-- C1 witness: omitting `orderId` on the sample `GetOrder` call yields the
`MissingRequiredParameter` error and dispatches nothing. -/
theorem C1_missing_required_parameter_aborts_witness :
    executeOperation sampleClient sampleSpec sampleMissingOpts =
      (.error ⟨"Required parameter 'orderId' (path) is missing", "oms",
        some "GetOrder"⟩, []) := by
  obtain ⟨q, hq1, hq2, _, _, _, hfull⟩ :=
    C1_missing_required_parameter_aborts sampleSpec sampleMissingOpts
      sampleClient sampleOp "GET" "/orders/\x7borderId\x7d" rfl
      sampleIdParam (List.mem_cons_self _ _) rfl (Or.inl rfl) rfl (by decide)
  rcases List.mem_cons.mp hq1 with hc | hc
  · injection hc with hc'
    subst hc'
    rw [hfull]
    rfl
  · rcases List.mem_cons.mp hc with hc2 | hc2
    · injection hc2 with hc2'
      subst hc2'
      simp [samplePageParam] at hq2
    · exact absurd hc2 (List.not_mem_nil _)

/-! ## C9 — a repeated placeholder defeats substitution -/

/-- The declared (required) `id` path parameter of the duplicate-placeholder
example. -/
def dupIdParam : OpenAPIParameter := ⟨"id", "path", true, none, none⟩

/-- An operation on a template that repeats `{id}`. -/
def dupOp : OpenAPIOperation := ⟨some "DupOp", some [.param dupIdParam], none⟩

/-- `GET /r/{id}/s/{id}` — the same placeholder twice. -/
def dupSpec : OpenAPISpec :=
  ⟨[("/r/\x7bid\x7d/s/\x7bid\x7d", { emptyItem with get := some dupOp })]⟩

/-- A call supplying a value for `id`. -/
def dupOpts : ExecuteAPIOptions :=
  ⟨"grp", some "DupOp", none, none, [("id", "7")], [], [], none⟩

/-- C9: on a path template containing the same `{id}` placeholder twice,
substitution replaces only the first occurrence, so `buildPath` — and hence
`executeOperation`, even though a value for `id` is supplied — fails with an
`UnresolvedPathParameter` error for the leftover occurrence, and nothing is
dispatched. -/
theorem C9_duplicate_placeholder_unresolved :
    buildPath "/r/\x7bid\x7d/s/\x7bid\x7d" [("id", "7")] =
      .error (.unresolvedPathParameters ["id"]) ∧
    executeOperation sampleClient dupSpec dupOpts =
      (.error ⟨"Unresolved path parameters: \x7bid\x7d", "grp", some "DupOp"⟩,
        []) := by
  constructor
  · rfl
  · rfl

/-! ## C10 — error-path envelopes turn id 0 into null -/

/-- C10: the branches built with `requestBody?.id || null` — the
invalid-envelope branch of `mcpToolsCall` and the catch-alls of `mcpRouter`
and `mcpToolsList` — replace a request id of `0` by `null`, while a success
response (here `mcpToolsList`) echoes id `0` unchanged. -/
theorem C10_zero_id_nulled_in_error_paths (req : MCPRequest)
    (deps : ToolsCallDeps) (hid : req.id = some (.num 0))
    (hbad : req.jsonrpc ≠ "2.0") :
    mcpToolsCall deps req = ⟨400, .failure .null (-32600) "Invalid Request"⟩ ∧
    mcpRouterCatchBody (some req) = ⟨500, .null, -32603, "Internal error"⟩ ∧
    mcpToolsListCatchBody (some req) = ⟨500, .null, -32603, "Internal error"⟩ ∧
    (∀ deps' : ToolsListDeps, ∃ tools,
      mcpToolsList (some ⟨true⟩) deps'
          { req with jsonrpc := "2.0", method := "tools/list" } =
        ⟨200, .success (.num 0) tools⟩) := by
  refine ⟨?_, ?_, ?_, ?_⟩
  · simp [mcpToolsCall, hbad, hid, jsFallbackId, idTruthy]
  · simp [mcpRouterCatchBody, hid, jsFallbackId, idTruthy]
  · simp [mcpToolsListCatchBody, hid, jsFallbackId, idTruthy]
  · intro deps'
    obtain ⟨j, i, mth, pr⟩ := req
    simp only at hid
    subst hid
    exact ⟨_, rfl⟩

/-- Trivial `tools/call` collaborators. -/
def trivialCallDeps : ToolsCallDeps :=
  ⟨fun _ => none, fun _ => .ok ⟨[]⟩, sampleClient⟩

/-- An envelope with a bad `jsonrpc` version and id `0`. -/
def badReq : MCPRequest := ⟨"1.0", some (.num 0), "tools/call", none⟩

/-- C10 witness: the concrete bad envelope with id `0` gets `id: null` back
from the invalid-envelope branch and from the catch-all builders. -/
theorem C10_zero_id_nulled_in_error_paths_witness :
    mcpToolsCall trivialCallDeps badReq =
      ⟨400, .failure .null (-32600) "Invalid Request"⟩ ∧
    mcpRouterCatchBody (some badReq) = ⟨500, .null, -32603, "Internal error"⟩ ∧
    mcpToolsListCatchBody (some badReq) =
      ⟨500, .null, -32603, "Internal error"⟩ := by
  have h := C10_zero_id_nulled_in_error_paths badReq trivialCallDeps rfl
    (by decide)
  exact ⟨h.1, h.2.1, h.2.2.1⟩

/-! ## C8 — id 0 is a valid request id -/

/-- C8: a `tools/list` envelope with `jsonrpc: "2.0"` and `id: 0` passes
both the router's and the middleware's validation (0 is not treated as
absent) and the successful response echoes id 0; an envelope whose id is
`null` (or missing — JSON's rendering of `undefined`) is rejected by the
middleware with -32600, as is a present `null` id by the router. -/
theorem C8_zero_request_id_accepted (deps : ToolsListDeps)
    (params? : Option MCPParams) :
    (∃ tools, mcpToolsList (some ⟨true⟩) deps
        ⟨"2.0", some (.num 0), "tools/list", params?⟩ =
      ⟨200, .success (.num 0) tools⟩) ∧
    mcpRouterValidate ⟨"2.0", some (.num 0), "tools/list", params?⟩ =
      .proceed false ∧
    mcpToolsList (some ⟨true⟩) deps ⟨"2.0", some .null, "tools/list", params?⟩ =
      ⟨400, .failure .null (-32600) "Invalid Request"⟩ ∧
    mcpToolsList (some ⟨true⟩) deps ⟨"2.0", none, "tools/list", params?⟩ =
      ⟨400, .failure .null (-32600) "Invalid Request"⟩ ∧
    mcpRouterValidate ⟨"2.0", some .null, "tools/list", params?⟩ =
      .reject ⟨400, .null, -32600, "Invalid Request: id is required for requests"⟩ := by
  exact ⟨⟨_, rfl⟩, rfl, rfl, rfl, rfl⟩

/-! ## C7 — favorite tool schemas: only path/query properties, and every
path parameter is required -/

/-- Keys after an `aset` write. -/
theorem aset_keys (r : List (String × PropSchema)) (k k' : String)
    (v : PropSchema) :
    k' ∈ (aset r k v).map Prod.fst ↔ k' = k ∨ k' ∈ r.map Prod.fst := by
  induction r with
  | nil => simp [aset]
  | cons kv rest ih =>
    obtain ⟨k0, v0⟩ := kv
    by_cases h : k0 = k
    · subst h
      simp [aset]
    · simp only [aset, if_neg h, List.map_cons, List.mem_cons, ih]
      tauto

/-- Every property key produced by the favorite-schema loop comes from the
accumulator or from a declared `path`/`query` parameter. -/
theorem buildFavSchema_props (ps : List SpecParam) :
    ∀ (props : List (String × PropSchema)) (req : List String) (k : String),
    k ∈ (buildFavSchema ps props req).1.map Prod.fst →
    k ∈ props.map Prod.fst ∨
      ∃ p : OpenAPIParameter, SpecParam.param p ∈ ps ∧ p.name = k ∧
        (p.paramIn = "path" ∨ p.paramIn = "query") := by
  induction ps with
  | nil => intro props req k h; exact Or.inl h
  | cons sp rest ih =>
    intro props req k h
    cases sp with
    | ref t =>
      rcases ih props req k (by simpa only [buildFavSchema] using h) with
        h' | ⟨p, hp1, hp2⟩
      · exact Or.inl h'
      · exact Or.inr ⟨p, List.mem_cons_of_mem _ hp1, hp2⟩
    | param p =>
      by_cases hin : p.paramIn ≠ "path" ∧ p.paramIn ≠ "query"
      · rcases ih props req k
          (by simpa only [buildFavSchema, if_pos hin] using h) with
          h' | ⟨p', hp1, hp2⟩
        · exact Or.inl h'
        · exact Or.inr ⟨p', List.mem_cons_of_mem _ hp1, hp2⟩
      · have hio : p.paramIn = "path" ∨ p.paramIn = "query" := by
          by_cases h1 : p.paramIn = "path"
          · exact Or.inl h1
          · exact Or.inr (by
              by_contra h2
              exact hin ⟨h1, h2⟩)
        rcases ih _ _ k (by simpa only [buildFavSchema, if_neg hin] using h) with
          h' | ⟨p', hp1, hp2⟩
        · rcases (aset_keys _ _ _ _).mp h' with hk | hk
          · exact Or.inr ⟨p, List.mem_cons_self _ _, hk.symm, hio⟩
          · exact Or.inl hk
        · exact Or.inr ⟨p', List.mem_cons_of_mem _ hp1, hp2⟩

/-- The favorite-schema loop only ever appends to `required`. -/
theorem buildFavSchema_req_mono (ps : List SpecParam) :
    ∀ (props : List (String × PropSchema)) (req : List String) (x : String),
    x ∈ req → x ∈ (buildFavSchema ps props req).2 := by
  induction ps with
  | nil => intro props req x hx; exact hx
  | cons sp rest ih =>
    intro props req x hx
    cases sp with
    | ref t => simpa only [buildFavSchema] using ih props req x hx
    | param p =>
      by_cases hin : p.paramIn ≠ "path" ∧ p.paramIn ≠ "query"
      · simpa only [buildFavSchema, if_pos hin] using ih props req x hx
      · simp only [buildFavSchema, if_neg hin]
        by_cases hpush : (p.required || p.paramIn = "path") = true
        · simp only [hpush, if_true]
          exact ih _ _ x (List.mem_append_left _ hx)
        · simp only [hpush, if_false]
          exact ih _ _ x hx

/-- Every declared `path`/`query` parameter that is required or located in
`path` ends up in the loop's `required` list. -/
theorem buildFavSchema_req_complete (ps : List SpecParam) :
    ∀ (props : List (String × PropSchema)) (req : List String)
      (p : OpenAPIParameter), SpecParam.param p ∈ ps →
    (p.paramIn = "path" ∨ p.paramIn = "query") →
    (p.required = true ∨ p.paramIn = "path") →
    p.name ∈ (buildFavSchema ps props req).2 := by
  induction ps with
  | nil =>
    intro props req p hmem
    exact absurd hmem (List.not_mem_nil _)
  | cons sp rest ih =>
    intro props req p hmem hio hreq
    cases sp with
    | ref t =>
      have hmem' : SpecParam.param p ∈ rest := by
        rcases List.mem_cons.mp hmem with hc | hc
        · cases hc
        · exact hc
      simpa only [buildFavSchema] using ih props req p hmem' hio hreq
    | param pHead =>
      rcases List.mem_cons.mp hmem with hc | hc
      · injection hc with hc'
        subst hc'
        have hin : ¬(p.paramIn ≠ "path" ∧ p.paramIn ≠ "query") := by
          rcases hio with h | h <;> simp [h]
        have hpush : (p.required || p.paramIn = "path") = true := by
          rcases hreq with h | h <;> simp [h]
        simp only [buildFavSchema, if_neg hin, hpush, if_true]
        exact buildFavSchema_req_mono rest _ _ p.name
          (List.mem_append_right _ (List.mem_cons_self _ _))
      · by_cases hin : pHead.paramIn ≠ "path" ∧ pHead.paramIn ≠ "query"
        · simpa only [buildFavSchema, if_pos hin] using ih props req p hc hio hreq
        · simp only [buildFavSchema, if_neg hin]
          by_cases hpush : (pHead.required || pHead.paramIn = "path") = true
          · simp only [hpush, if_true]
            exact ih _ _ p hc hio hreq
          · simp only [hpush, if_false]
            exact ih _ _ p hc hio hreq

/-- C7: for a Favorite whose operation resolves in its group's fetched
document, the synthesized tool's input-schema properties come only from the
operation's `in=path`/`in=query` parameters, a property is required when its
declared parameter is required or located in `path`, and hence the declared
`required` list contains every `in=path` parameter name. -/
theorem C7_favorite_tool_schema (gm : String → Option SpecMetadata)
    (gs : String → Option OpenAPISpec) (fav : Favorite) (t : MCPTool)
    (spec : OpenAPISpec) (op : OpenAPIOperation) (fp fm : String)
    (hspec : gs fav.apiGroup = some spec)
    (hfind : findFavOperation spec fav = some (op, fp, fm))
    (htool : favoriteTool gm gs fav = some t) :
    (∀ k, k ∈ t.inputSchema.properties.map Prod.fst →
      ∃ p : OpenAPIParameter, SpecParam.param p ∈ op.parameters.getD [] ∧
        p.name = k ∧ (p.paramIn = "path" ∨ p.paramIn = "query")) ∧
    (∀ p : OpenAPIParameter, SpecParam.param p ∈ op.parameters.getD [] →
      (p.paramIn = "path" ∨ p.paramIn = "query") →
      (p.required = true ∨ p.paramIn = "path") →
      p.name ∈ t.inputSchema.required) ∧
    (∀ p : OpenAPIParameter, SpecParam.param p ∈ op.parameters.getD [] →
      p.paramIn = "path" → p.name ∈ t.inputSchema.required) := by
  rcases hgm : gm fav.apiGroup with _ | meta
  · rw [favoriteTool, hgm] at htool
    cases htool
  · simp only [favoriteTool, hgm, hspec, hfind] at htool
    by_cases hen : ¬(meta.enabled && meta.specUrl ≠ "") = true
    · rw [if_pos hen] at htool
      cases htool
    · rw [if_neg hen] at htool
      injection htool with htool'
      subst htool'
      refine ⟨?_, ?_, ?_⟩
      · intro k hk
        rcases buildFavSchema_props (op.parameters.getD []) [] [] k hk with
          h' | h'
        · simp at h'
        · exact h'
      · intro p hp hio hreq
        exact buildFavSchema_req_complete (op.parameters.getD []) [] [] p
          hp hio hreq
      · intro p hp hio
        exact buildFavSchema_req_complete (op.parameters.getD []) [] [] p
          hp (Or.inl hio) (Or.inr hio)

/-- Group-metadata collaborator for the C7 witness. -/
def gmW : String → Option SpecMetadata :=
  fun _ => some ⟨"oms", some "1", "https://specs/oms.json", true, none⟩

/-- Group-spec collaborator for the C7 witness. -/
def gsW : String → Option OpenAPISpec := fun _ => some sampleSpec

/-- The C7 witness favorite. -/
def favW : Favorite := ⟨"oms", "GetOrder", none, none, none⟩

/-- The tool synthesized for `favW` from the sample document. -/
def favToolW : MCPTool :=
  ⟨"oms_GetOrder", "Execute oms.GetOrder (GET /orders/\x7borderId\x7d)",
    ⟨[("orderId", .mk "string" none none none none),
      ("page", .mk "string" none none none none)], ["orderId"]⟩⟩

/-- C7 witness: the sample favorite resolves `GetOrder` and its tool marks
the `orderId` path parameter as required. -/
theorem C7_favorite_tool_schema_witness :
    "orderId" ∈ favToolW.inputSchema.required :=
  (C7_favorite_tool_schema gmW gsW favW favToolW sampleSpec sampleOp
      "/orders/\x7borderId\x7d" "get" rfl rfl rfl).2.2 sampleIdParam
    (List.mem_cons_self _ _) rfl

/-! ## C6 — tools/call executes by (method, path) when no operationId -/

/-- The execution options the `vtex_api_call` branch hands to
`executeOperation` (parameters categorized per the locator chosen by
`operationId || {method, path}`). -/
def toolsCallExecOptions (spec : OpenAPISpec) (args : ToolArgs) :
    ExecuteAPIOptions :=
  let categorized :=
    categorizeParameters spec
      (if strTruthy args.operationId then
        OperationLocator.byId (args.operationId.getD "")
      else
        OperationLocator.byMethodPath (args.method.getD "") (args.path.getD ""))
      (args.parameters.getD [])
  ⟨args.apiGroup.getD "", args.operationId, args.method, args.path,
    categorized.pathParams, categorized.queryParams, categorized.headers,
    args.body⟩

/-- C6: a `tools/call` request for `vtex_api_call` that supplies `apiGroup`,
`method` and `path` but no `operationId` is accepted; the executor resolves
the operation by the `(method, path)` pair (`findOperationByPathAndMethod`),
the handler executes it through the very same execution pipeline as in the
operationId case, and — whenever by-id resolution agrees with the
`(method, path)` resolution — the executor builds the identical request. -/
theorem C6_tools_call_by_method_and_path (deps : ToolsCallDeps)
    (i : JsonId) (args : ToolArgs) (meta : SpecMetadata) (spec : OpenAPISpec)
    (mth pth : String)
    (hinull : i ≠ .null)
    (hoid : args.operationId = none)
    (hm : args.method = some mth) (hmne : mth ≠ "")
    (hp : args.path = some pth) (hpne : pth ≠ "")
    (hmeta : deps.getAPISpecByGroup (args.apiGroup.getD "") = some meta)
    (hfetch : deps.fetchSpecFromUrl meta.specUrl = .ok spec) :
    resolveOperation spec (toolsCallExecOptions spec args) =
      findOperationByPathAndMethod spec mth pth ∧
    mcpToolsCall deps
        ⟨"2.0", some i, "tools/call",
          some ⟨some "vtex_api_call", some args⟩⟩ =
      (match executeOperation deps.client spec (toolsCallExecOptions spec args) with
       | (.error w, _) =>
          toolsCallCatch
            ⟨"2.0", some i, "tools/call", some ⟨some "vtex_api_call", some args⟩⟩
            (wrappedToJSError w)
       | (.ok result, _) =>
          ⟨200, .success i (serializeExecResult result)
            (jsOrStr (some result.metadata.contentType) "application/json")
            false⟩) ∧
    (∀ oid op M P, oid ≠ "" →
      resolveOperation spec
          { toolsCallExecOptions spec args with operationId := some oid } =
        .ok (op, M, P) →
      resolveOperation spec (toolsCallExecOptions spec args) = .ok (op, M, P) →
      executeOperationCore spec
          { toolsCallExecOptions spec args with operationId := some oid } =
        executeOperationCore spec (toolsCallExecOptions spec args)) := by
  refine ⟨?_, ?_, ?_⟩
  · simp [resolveOperation, toolsCallExecOptions, hoid, hm, hp, strTruthy,
      hmne, hpne]
  · have hcond1 : ¬(("2.0" : String) ≠ "2.0" ∨ (some i : Option JsonId) = none ∨
        some i = some JsonId.null) := by simp [hinull]
    rw [mcpToolsCall, if_neg hcond1,
      if_neg (by decide :
        ¬¬(getValidMethodsForEndpoint "tools/call").contains "tools/call" = true)]
    simp only [jsNullishId]
    rw [if_neg (by simp [strTruthy])]
    rw [if_neg (by simp)]
    rw [if_neg (by simp [hoid, hm, hp, strTruthy, hmne, hpne])]
    simp only [Option.getD_some]
    rw [hmeta]
    simp only []
    rw [hfetch]
    simp only []
    simp only [if_true]
    simp [toolsCallExecOptions, hoid, hm, hp, strTruthy]
  · intro oid op M P hne h1 h2
    unfold executeOperationCore
    rw [h1, h2]

/-- The C6 witness arguments: group + method + path, no operationId. -/
def c6Args : ToolArgs :=
  ⟨some "oms", none, some "GET", some "/orders/\x7borderId\x7d",
    some [("orderId", "7")], none⟩

/-- The C6 witness collaborators. -/
def c6Deps : ToolsCallDeps :=
  ⟨fun _ => some ⟨"oms", some "1", "https://specs/oms.json", true, none⟩,
    fun _ => .ok sampleSpec, sampleClient⟩

/-- C6 witness: with the sample document, the by-(method, path) call resolves
`GET /orders/{orderId}` and the executor builds the same request as a
`GetOrder` by-id call over the same buckets. -/
theorem C6_tools_call_by_method_and_path_witness :
    resolveOperation sampleSpec (toolsCallExecOptions sampleSpec c6Args) =
      findOperationByPathAndMethod sampleSpec "GET" "/orders/\x7borderId\x7d" ∧
    executeOperationCore sampleSpec
        { toolsCallExecOptions sampleSpec c6Args with
            operationId := some "GetOrder" } =
      executeOperationCore sampleSpec (toolsCallExecOptions sampleSpec c6Args) := by
  have h := C6_tools_call_by_method_and_path c6Deps (.num 1) c6Args
    ⟨"oms", some "1", "https://specs/oms.json", true, none⟩ sampleSpec
    "GET" "/orders/\x7borderId\x7d" (by decide) rfl rfl (by decide) rfl
    (by decide) rfl rfl
  exact ⟨h.1, h.2.2 "GetOrder" sampleOp "GET" "/orders/\x7borderId\x7d"
    (by decide) rfl rfl⟩

/-! ## C2 — path templating: full substitution, URL-encoding, and the
unresolved-placeholder guard

A path template is analysed as a list of *segments*: literal chunks (no
braces) and placeholders `{name}` (nonempty, brace-free names).  This is the
well-formed shape of an OpenAPI path template; the claim's "template with N
distinct `{placeholder}` tokens" is a well-formed template whose placeholder
names are pairwise distinct. -/

/-- A template segment: a literal chunk or a `{name}` placeholder. -/
inductive Seg where
  | lit (cs : List Char)
  | ph (name : List Char)

/-- Render one segment back to characters. -/
def renderSeg : Seg → List Char
  | .lit cs => cs
  | .ph n => lbrace :: (n ++ [rbrace])

/-- Render a segment list. -/
def renderSegs (segs : List Seg) : List Char := segs.flatMap renderSeg

/-- Segment well-formedness: literals carry no braces; placeholder names are
nonempty and brace-free. -/
def SegWF : Seg → Prop
  | .lit cs => braceFree cs = true
  | .ph n => n ≠ [] ∧ braceFree n = true

/-- The placeholder names of a segment list, in order. -/
def phNames (segs : List Seg) : List (List Char) :=
  segs.filterMap fun s =>
    match s with
    | .lit _ => none
    | .ph n => some n

/-- A brace-free character is not `{`. -/
theorem braceFree_cons (c : Char) (cs : List Char)
    (h : braceFree (c :: cs) = true) :
    c ≠ lbrace ∧ c ≠ rbrace ∧ braceFree cs = true := by
  simp only [braceFree, List.all_cons, Bool.and_eq_true, bne_iff_ne] at h
  exact ⟨h.1.1, h.1.2, h.2⟩

/-- The scanner ignores a brace-free chunk while outside a candidate. -/
theorem scanPHAux_lit (cs : List Char) (h : braceFree cs = true)
    (r : List Char) :
    scanPHAux (cs ++ r) none = scanPHAux r none := by
  induction cs with
  | nil => rfl
  | cons c cs' ih =>
    obtain ⟨hc, _, hcs⟩ := braceFree_cons c cs' h
    simp only [List.cons_append, scanPHAux, if_neg hc]
    exact ih hcs

/-- Inside a candidate, a brace-free run extends the accumulator and the
closing `}` emits the collected (nonempty) name. -/
theorem scanPHAux_inside (n : List Char) :
    ∀ (acc r : List Char), braceFree n = true →
    scanPHAux (n ++ rbrace :: r) (some acc) =
      (if (acc.reverse ++ n).isEmpty then scanPHAux r none
       else (acc.reverse ++ n) :: scanPHAux r none) := by
  induction n with
  | nil =>
    intro acc r _
    simp only [List.nil_append, List.append_nil, scanPHAux, if_pos rfl]
    rcases hacc : acc with _ | ⟨a, acc'⟩ <;> simp [hacc]
  | cons c n' ih =>
    intro acc r h
    obtain ⟨hc1, hc2, hcs⟩ := braceFree_cons c n' h
    simp only [List.cons_append, scanPHAux, if_neg hc2]
    show scanPHAux (n' ++ rbrace :: r) (some (c :: acc)) = _
    rw [ih (c :: acc) r hcs]
    have hacc : (c :: acc).reverse ++ n' = acc.reverse ++ (c :: n') := by
      simp
    rw [hacc]

/-- Scanning a rendered well-formed segment list yields exactly its
placeholder names. -/
theorem scanPH_renderSegs (segs : List Seg) (hwf : ∀ s ∈ segs, SegWF s) :
    scanPH (renderSegs segs) = phNames segs := by
  induction segs with
  | nil => rfl
  | cons s rest ih =>
    have hs := hwf s (List.mem_cons_self _ _)
    have hrest := fun s' h' => hwf s' (List.mem_cons_of_mem _ h')
    cases s with
    | lit cs =>
      show scanPHAux (cs ++ renderSegs rest) none = phNames (.lit cs :: rest)
      rw [scanPHAux_lit cs hs]
      exact ih hrest
    | ph n =>
      obtain ⟨hne, hbf⟩ := hs
      show scanPHAux ((lbrace :: (n ++ [rbrace])) ++ renderSegs rest) none =
        phNames (.ph n :: rest)
      have hshape : (lbrace :: (n ++ [rbrace])) ++ renderSegs rest =
          lbrace :: (n ++ rbrace :: renderSegs rest) := by simp
      rw [hshape]
      have hstep : scanPHAux (lbrace :: (n ++ rbrace :: renderSegs rest)) none =
          scanPHAux (n ++ rbrace :: renderSegs rest) (some []) := by
        simp [scanPHAux]
      rw [hstep, scanPHAux_inside n [] (renderSegs rest) hbf]
      simp only [List.reverse_nil, List.nil_append]
      rw [show n.isEmpty = false from by simpa [List.isEmpty_iff] using hne]
      simp only [Bool.false_eq_true, if_false]
      show n :: scanPH (renderSegs rest) = phNames (.ph n :: rest)
      rw [ih hrest]
      rfl

/-- `k}` is a prefix of `j}r` exactly when `k = j`, for brace-free names:
a placeholder token can only match another placeholder with the same name. -/
theorem prefix_ph_core (k : List Char) :
    ∀ (j r : List Char), braceFree j = true → braceFree k = true →
    ((k ++ [rbrace]).isPrefixOf (j ++ rbrace :: r) = true ↔ k = j) := by
  induction k with
  | nil =>
    intro j r hj _
    cases j with
    | nil => simp [List.isPrefixOf]
    | cons c j' =>
      obtain ⟨_, hc2, _⟩ := braceFree_cons c j' hj
      simp [List.isPrefixOf, Ne.symm hc2]
  | cons a k' ih =>
    intro j r hj hk
    obtain ⟨_, ha2, hk'⟩ := braceFree_cons a k' hk
    cases j with
    | nil => simp [List.isPrefixOf, ha2]
    | cons c j' =>
      obtain ⟨_, _, hj'⟩ := braceFree_cons c j' hj
      by_cases hac : a = c
      · subst hac
        simp only [List.cons_append, List.isPrefixOf, beq_self_eq_true,
          Bool.true_and]
        show (k' ++ [rbrace]).isPrefixOf (j' ++ rbrace :: r) = true ↔
          a :: k' = a :: j'
        rw [ih j' r hj' hk']
        simp
      · simp [List.isPrefixOf, hac]

/-- `includes` walks transparently through a brace-free chunk when the
needle starts with `{`. -/
theorem listIncludes_lit (t : List Char) (cs : List Char)
    (h : braceFree cs = true) (r : List Char) :
    listIncludes (cs ++ r) (lbrace :: t) = listIncludes r (lbrace :: t) := by
  induction cs with
  | nil => rfl
  | cons c cs' ih =>
    obtain ⟨hc1, _, hcs⟩ := braceFree_cons c cs' h
    simp only [List.cons_append, listIncludes]
    have hpre : (lbrace :: t).isPrefixOf (c :: (cs' ++ r)) = false := by
      simp [List.isPrefixOf, Ne.symm hc1]
    show ((lbrace :: t).isPrefixOf (c :: (cs' ++ r)) ||
      listIncludes (cs' ++ r) (lbrace :: t)) = listIncludes r (lbrace :: t)
    rw [hpre, Bool.false_or]
    exact ih hcs

/-- On a rendered well-formed segment list, `includes "{k}"` holds exactly
when `k` is one of the placeholder names. -/
theorem listIncludes_renderSegs (k : List Char) (hk : braceFree k = true)
    (segs : List Seg) (hwf : ∀ s ∈ segs, SegWF s) :
    (listIncludes (renderSegs segs) (lbrace :: (k ++ [rbrace])) = true ↔
      k ∈ phNames segs) := by
  induction segs with
  | nil => simp [renderSegs, listIncludes, List.isPrefixOf, phNames]
  | cons s rest ih =>
    have hs := hwf s (List.mem_cons_self _ _)
    have hrest := fun s' h' => hwf s' (List.mem_cons_of_mem _ h')
    cases s with
    | lit cs =>
      show listIncludes (cs ++ renderSegs rest) _ = true ↔ _
      rw [listIncludes_lit _ cs hs]
      rw [ih hrest]
      rfl
    | ph j =>
      obtain ⟨hjne, hjbf⟩ := hs
      have hshape : renderSegs (.ph j :: rest) =
          lbrace :: (j ++ rbrace :: renderSegs rest) := by
        show (lbrace :: (j ++ [rbrace])) ++ renderSegs rest = _
        simp
      rw [hshape]
      show ((lbrace :: (k ++ [rbrace])).isPrefixOf _ ||
        listIncludes (j ++ rbrace :: renderSegs rest) _) = true ↔ _
      have hhead : (lbrace :: (k ++ [rbrace])).isPrefixOf
          (lbrace :: (j ++ rbrace :: renderSegs rest)) = decide (k = j) := by
        simp only [List.isPrefixOf, beq_self_eq_true, Bool.true_and]
        by_cases hkj : k = j
        · simp [hkj, (prefix_ph_core k j (renderSegs rest) hjbf hk).mpr hkj]
        · rw [decide_eq_false hkj]
          by_contra hcon
          rw [Bool.not_eq_false] at hcon
          exact hkj ((prefix_ph_core k j (renderSegs rest) hjbf hk).mp hcon)
      have htail : listIncludes (j ++ rbrace :: renderSegs rest)
          (lbrace :: (k ++ [rbrace])) =
          listIncludes (renderSegs rest) (lbrace :: (k ++ [rbrace])) := by
        rw [listIncludes_lit _ j hjbf]
        show ((lbrace :: (k ++ [rbrace])).isPrefixOf _ || _) = _
        have : (lbrace :: (k ++ [rbrace])).isPrefixOf
            (rbrace :: renderSegs rest) = false := by
          simp [List.isPrefixOf]
          intro hcon
          exact absurd hcon.symm (by decide : rbrace ≠ lbrace)
        rw [this, Bool.false_or]
      rw [hhead, htail]
      constructor
      · intro h
        rcases Bool.or_eq_true_iff.mp h with h' | h'
        · exact (of_decide_eq_true h') ▸ List.mem_cons_self _ _
        · exact List.mem_cons_of_mem _ ((ih hrest).mp h')
      · intro h
        rcases List.mem_cons.mp h with h' | h'
        · rw [h', decide_eq_true rfl, Bool.true_or]
        · rw [(ih hrest).mpr h', Bool.or_true]

/-- Replace the first placeholder named `k` by a literal chunk `v`. -/
def replacePh (segs : List Seg) (k v : List Char) : List Seg :=
  match segs with
  | [] => []
  | .lit cs :: rest => .lit cs :: replacePh rest k v
  | .ph n :: rest =>
      if n = k then .lit v :: rest else .ph n :: replacePh rest k v

/-- `replace` walks transparently through a brace-free chunk when the
pattern starts with `{`. -/
theorem replaceFirst_lit (t v : List Char) (cs : List Char)
    (h : braceFree cs = true) (r : List Char) :
    replaceFirstChars (cs ++ r) (lbrace :: t) v =
      cs ++ replaceFirstChars r (lbrace :: t) v := by
  induction cs with
  | nil => rfl
  | cons c cs' ih =>
    obtain ⟨hc1, _, hcs⟩ := braceFree_cons c cs' h
    have hpre : (lbrace :: t).isPrefixOf (c :: (cs' ++ r)) = false := by
      simp [List.isPrefixOf, Ne.symm hc1]
    show (if (lbrace :: t).isPrefixOf (c :: (cs' ++ r)) = true then _ else
      c :: replaceFirstChars (cs' ++ r) (lbrace :: t) v) = _
    rw [hpre]
    simp only [Bool.false_eq_true, if_false, List.cons_append]
    exact congrArg _ (ih hcs)

/-- Replacing the first occurrence of `{k}` in a rendered well-formed
segment list is exactly `replacePh` on the segments. -/
theorem replaceFirst_renderSegs (k v : List Char) (hk : braceFree k = true) :
    ∀ (segs : List Seg), (∀ s ∈ segs, SegWF s) → k ∈ phNames segs →
    replaceFirstChars (renderSegs segs) (lbrace :: (k ++ [rbrace])) v =
      renderSegs (replacePh segs k v) := by
  intro segs
  induction segs with
  | nil =>
    intro _ hmem
    exact absurd hmem (List.not_mem_nil _)
  | cons s rest ih =>
    intro hwf hmem
    have hs := hwf s (List.mem_cons_self _ _)
    have hrest := fun s' h' => hwf s' (List.mem_cons_of_mem _ h')
    cases s with
    | lit cs =>
      show replaceFirstChars (cs ++ renderSegs rest) _ _ = _
      rw [replaceFirst_lit _ v cs hs]
      rw [ih hrest (show k ∈ phNames rest from hmem)]
      rfl
    | ph j =>
      obtain ⟨hjne, hjbf⟩ := hs
      have hshape : renderSegs (.ph j :: rest) =
          lbrace :: (j ++ rbrace :: renderSegs rest) := by
        show (lbrace :: (j ++ [rbrace])) ++ renderSegs rest = _
        simp
      rw [hshape]
      by_cases hjk : j = k
      · subst hjk
        have hpre : (lbrace :: (j ++ [rbrace])).isPrefixOf
            (lbrace :: (j ++ rbrace :: renderSegs rest)) = true := by
          simp only [List.isPrefixOf, beq_self_eq_true, Bool.true_and]
          exact (prefix_ph_core j j (renderSegs rest) hjbf hjbf).mpr rfl
        show (if (lbrace :: (j ++ [rbrace])).isPrefixOf
            (lbrace :: (j ++ rbrace :: renderSegs rest)) = true then
          v ++ (lbrace :: (j ++ rbrace :: renderSegs rest)).drop
            (lbrace :: (j ++ [rbrace])).length
          else _) = _
        rw [hpre]
        simp only [if_true]
        have hdrop : (lbrace :: (j ++ rbrace :: renderSegs rest)).drop
            (lbrace :: (j ++ [rbrace])).length = renderSegs rest := by
          have hlen : (lbrace :: (j ++ [rbrace])).length = j.length + 2 := by
            simp
          rw [hlen]
          show (lbrace :: (j ++ rbrace :: renderSegs rest)).drop
            (j.length + 2) = renderSegs rest
          have hre : j ++ rbrace :: renderSegs rest =
              (j ++ [rbrace]) ++ renderSegs rest := by simp
          rw [List.drop_succ_cons, hre]
          exact List.drop_left' (by simp)
        rw [hdrop]
        show v ++ renderSegs rest = renderSegs (replacePh (.ph j :: rest) j v)
        simp [replacePh, renderSegs, renderSeg]
      · have hpre : (lbrace :: (k ++ [rbrace])).isPrefixOf
            (lbrace :: (j ++ rbrace :: renderSegs rest)) = false := by
          simp only [List.isPrefixOf, beq_self_eq_true, Bool.true_and]
          by_contra hcon
          rw [Bool.not_eq_false] at hcon
          exact hjk
            (((prefix_ph_core k j (renderSegs rest) hjbf hk).mp hcon).symm)
        have hmem' : k ∈ phNames rest := by
          rcases List.mem_cons.mp
              (show k ∈ j :: phNames rest from hmem) with hc | hc
          · exact absurd hc.symm hjk
          · exact hc
        show (if (lbrace :: (k ++ [rbrace])).isPrefixOf
            (lbrace :: (j ++ rbrace :: renderSegs rest)) = true then _
          else lbrace :: replaceFirstChars (j ++ rbrace :: renderSegs rest)
            (lbrace :: (k ++ [rbrace])) v) = _
        rw [hpre]
        simp only [Bool.false_eq_true, if_false]
        rw [replaceFirst_lit _ v j hjbf]
        have hstep : replaceFirstChars (rbrace :: renderSegs rest)
            (lbrace :: (k ++ [rbrace])) v =
            rbrace :: replaceFirstChars (renderSegs rest)
              (lbrace :: (k ++ [rbrace])) v := by
          have : (lbrace :: (k ++ [rbrace])).isPrefixOf
              (rbrace :: renderSegs rest) = false := by
            simp only [List.isPrefixOf]
            have : (lbrace == rbrace) = false := by decide
            rw [this, Bool.false_and]
          show (if (lbrace :: (k ++ [rbrace])).isPrefixOf
              (rbrace :: renderSegs rest) = true then _ else
            rbrace :: replaceFirstChars (renderSegs rest)
              (lbrace :: (k ++ [rbrace])) v) = _
          rw [this]
          simp
        rw [hstep, ih hrest hmem']
        show lbrace :: (j ++ rbrace :: renderSegs (replacePh rest k v)) =
          renderSegs (replacePh (.ph j :: rest) k v)
        simp [replacePh, hjk, renderSegs, renderSeg]

/-- `replacePh` preserves well-formedness when the inserted chunk is
brace-free. -/
theorem replacePh_wf (k v : List Char) (hv : braceFree v = true) :
    ∀ segs : List Seg, (∀ s ∈ segs, SegWF s) →
    ∀ s ∈ replacePh segs k v, SegWF s := by
  intro segs
  induction segs with
  | nil => intro _ s hs; exact absurd hs (List.not_mem_nil _)
  | cons s0 rest ih =>
    intro hwf s hs
    have hrest := fun s' h' => hwf s' (List.mem_cons_of_mem _ h')
    cases s0 with
    | lit cs =>
      rcases List.mem_cons.mp (show s ∈ Seg.lit cs :: replacePh rest k v from hs)
        with hc | hc
      · exact hc ▸ hwf _ (List.mem_cons_self _ _)
      · exact ih hrest s hc
    | ph n =>
      by_cases hnk : n = k
      · simp only [replacePh, if_pos hnk] at hs
        rcases List.mem_cons.mp hs with hc | hc
        · exact hc ▸ hv
        · exact hwf s (List.mem_cons_of_mem _ hc)
      · simp only [replacePh, if_neg hnk] at hs
        rcases List.mem_cons.mp hs with hc | hc
        · exact hc ▸ hwf _ (List.mem_cons_self _ _)
        · exact ih hrest s hc

/-- `replacePh` is the identity when no placeholder bears the name. -/
theorem replacePh_not_mem (k v : List Char) :
    ∀ segs : List Seg, k ∉ phNames segs → replacePh segs k v = segs := by
  intro segs
  induction segs with
  | nil => intro _; rfl
  | cons s0 rest ih =>
    intro hmem
    cases s0 with
    | lit cs =>
      show Seg.lit cs :: replacePh rest k v = _
      rw [ih (show k ∉ phNames rest from hmem)]
    | ph n =>
      have hmem' : k ∉ n :: phNames rest := hmem
      have hnk : n ≠ k := fun hc => hmem' (hc ▸ List.mem_cons_self _ _)
      simp only [replacePh, if_neg hnk]
      rw [ih fun hc => hmem' (List.mem_cons_of_mem _ hc)]

/-- The placeholder names after `replacePh` are the old ones with the first
occurrence of `k` erased. -/
theorem phNames_replacePh (k v : List Char) :
    ∀ segs : List Seg,
    phNames (replacePh segs k v) = (phNames segs).erase k := by
  intro segs
  induction segs with
  | nil => rfl
  | cons s0 rest ih =>
    cases s0 with
    | lit cs =>
      show phNames (replacePh rest k v) = (phNames rest).erase k
      exact ih
    | ph n =>
      by_cases hnk : n = k
      · subst hnk
        simp only [replacePh, if_pos rfl]
        show phNames rest = (n :: phNames rest).erase n
        rw [List.erase_cons_head]
      · simp only [replacePh, if_neg hnk]
        show n :: phNames (replacePh rest k v) = (n :: phNames rest).erase k
        rw [ih, List.erase_cons_tail]
        simp [hnk]

/-- Hexadecimal digits are never braces. -/
theorem hexDigit_not_brace (n : Nat) :
    hexDigit n ≠ lbrace ∧ hexDigit n ≠ rbrace := by
  unfold hexDigit
  have h : n % 16 < 16 := Nat.mod_lt _ (by norm_num)
  generalize hm : n % 16 = m at h ⊢
  interval_cases m <;> exact (by decide)

/-- `encodeURIComponent` output contains no braces: unreserved characters
exclude them and everything else is percent-encoded. -/
theorem encodeChar_braceFree (c : Char) : braceFree (encodeChar c) = true := by
  unfold encodeChar
  by_cases h : isUnreservedChar c = true
  · simp only [h, if_true]
    have h1 : c ≠ lbrace := fun hc => by
      rw [hc] at h
      exact absurd h (by decide)
    have h2 : c ≠ rbrace := fun hc => by
      rw [hc] at h
      exact absurd h (by decide)
    simp [braceFree, h1, h2]
  · simp only [h, if_false, Bool.false_eq_true]
    rw [braceFree, List.all_eq_true]
    intro x hx
    rw [List.mem_flatMap] at hx
    obtain ⟨b, _, hxb⟩ := hx
    have hcases : x = '%' ∨ x = hexDigit (b / 16) ∨ x = hexDigit (b % 16) := by
      simpa using hxb
    rcases hcases with hc | hc | hc
    · subst hc; decide
    · subst hc
      have := hexDigit_not_brace (b / 16)
      simp [this.1, this.2]
    · subst hc
      have := hexDigit_not_brace (b % 16)
      simp [this.1, this.2]

/-- `encodeURIComponentChars` output is brace-free. -/
theorem encode_braceFree (l : List Char) :
    braceFree (encodeURIComponentChars l) = true := by
  unfold encodeURIComponentChars
  rw [braceFree, List.all_eq_true]
  intro x hx
  rw [List.mem_flatMap] at hx
  obtain ⟨c, _, hxc⟩ := hx
  have h := encodeChar_braceFree c
  rw [braceFree, List.all_eq_true] at h
  exact h x hxc

/-- The keys of a parameter record, as character lists. -/
def keysChars (params : Rec) : List (List Char) :=
  params.map fun kv => kv.1.data

/-- The segment-level mirror of the substitution fold of `buildPath`. -/
def applyParams (segs : List Seg) (params : Rec) : List Seg :=
  params.foldl
    (fun sg kv =>
      if kv.1.data ∈ phNames sg then
        replacePh sg kv.1.data (encodeURIComponentChars kv.2.data)
      else sg)
    segs

/-- The substitution fold of `buildPath`, simulated on segments: it renders
`applyParams`, preserves well-formedness and distinctness, and leaves exactly
the placeholders whose names got no parameter. -/
theorem buildPathChars_renderSegs :
    ∀ (params : Rec) (segs : List Seg), (∀ s ∈ segs, SegWF s) →
    (phNames segs).Nodup →
    (∀ key ∈ rkeys params, braceFree key.data = true) →
    buildPathChars (renderSegs segs) params =
      renderSegs (applyParams segs params) ∧
    (∀ s ∈ applyParams segs params, SegWF s) ∧
    (phNames (applyParams segs params)).Nodup ∧
    phNames (applyParams segs params) =
      (phNames segs).filter fun n => decide (n ∉ keysChars params) := by
  intro params
  induction params with
  | nil =>
    intro segs hwf hnd _
    refine ⟨rfl, hwf, hnd, ?_⟩
    simp [keysChars, applyParams]
  | cons kv rest ih =>
    intro segs hwf hnd hkeys
    obtain ⟨k, v⟩ := kv
    have hkbf : braceFree k.data = true := hkeys k (by simp [rkeys])
    have hkeys' : ∀ key ∈ rkeys rest, braceFree key.data = true := by
      intro key h
      exact hkeys key (by simp [rkeys] at h ⊢; exact Or.inr h)
    have hstep :
        (if listIncludes (renderSegs segs)
            (lbrace :: (k.data ++ [rbrace])) = true then
          replaceFirstChars (renderSegs segs) (lbrace :: (k.data ++ [rbrace]))
            (encodeURIComponentChars v.data)
        else renderSegs segs) =
        renderSegs (if k.data ∈ phNames segs then
          replacePh segs k.data (encodeURIComponentChars v.data) else segs) := by
      by_cases hmem : k.data ∈ phNames segs
      · rw [if_pos ((listIncludes_renderSegs k.data hkbf segs hwf).mpr hmem),
          if_pos hmem]
        exact replaceFirst_renderSegs k.data _ hkbf segs hwf hmem
      · rw [if_neg
          (fun hc => hmem ((listIncludes_renderSegs k.data hkbf segs hwf).mp hc)),
          if_neg hmem]
    have hwf' : ∀ s ∈ (if k.data ∈ phNames segs then
        replacePh segs k.data (encodeURIComponentChars v.data) else segs),
        SegWF s := by
      by_cases hmem : k.data ∈ phNames segs
      · rw [if_pos hmem]
        exact replacePh_wf k.data _ (encode_braceFree v.data) segs hwf
      · rw [if_neg hmem]
        exact hwf
    have hnames' : phNames (if k.data ∈ phNames segs then
        replacePh segs k.data (encodeURIComponentChars v.data) else segs) =
        (if k.data ∈ phNames segs then (phNames segs).erase k.data
         else phNames segs) := by
      by_cases hmem : k.data ∈ phNames segs
      · rw [if_pos hmem, if_pos hmem, phNames_replacePh]
      · rw [if_neg hmem, if_neg hmem]
    have hnd' : (phNames (if k.data ∈ phNames segs then
        replacePh segs k.data (encodeURIComponentChars v.data) else segs)).Nodup := by
      rw [hnames']
      by_cases hmem : k.data ∈ phNames segs
      · rw [if_pos hmem]
        exact hnd.erase _
      · rw [if_neg hmem]
        exact hnd
    obtain ⟨ihb, ihwf, ihnd, ihnames⟩ := ih _ hwf' hnd' hkeys'
    have happly : applyParams segs ((k, v) :: rest) =
        applyParams (if k.data ∈ phNames segs then
          replacePh segs k.data (encodeURIComponentChars v.data) else segs)
          rest := by
      simp [applyParams, List.foldl_cons]
    refine ⟨?_, ?_, ?_, ?_⟩
    · show buildPathChars (renderSegs segs) ((k, v) :: rest) = _
      have hunfold : buildPathChars (renderSegs segs) ((k, v) :: rest) =
          buildPathChars
            (if listIncludes (renderSegs segs)
                (lbrace :: (k.data ++ [rbrace])) = true then
              replaceFirstChars (renderSegs segs)
                (lbrace :: (k.data ++ [rbrace]))
                (encodeURIComponentChars v.data)
            else renderSegs segs) rest := by
        simp [buildPathChars, List.foldl_cons]
      rw [hunfold, hstep, happly]
      exact ihb
    · rw [happly]
      exact ihwf
    · rw [happly]
      exact ihnd
    · rw [happly, ihnames, hnames']
      by_cases hmem : k.data ∈ phNames segs
      · rw [if_pos hmem, List.Nodup.erase_eq_filter hnd, List.filter_filter]
        refine List.filter_congr ?_
        intro n _
        by_cases hnk : n = k.data <;> simp [hnk, keysChars, Bool.and_comm, bne]
      · rw [if_neg hmem]
        refine List.filter_congr ?_
        intro n hn
        have hnk : n ≠ k.data := fun hc => hmem (hc ▸ hn)
        simp only [keysChars, List.map_cons, List.mem_cons, not_or]
        simp [hnk]

/-- The value of the first parameter entry whose key renders the name. -/
def lookupByName (params : Rec) (n : List Char) : Option String :=
  match params with
  | [] => none
  | (k, v) :: rest => if k.data = n then some v else lookupByName rest n

/-- Fill one segment: a placeholder becomes the URL-encoding of its
parameter value, when one is supplied. -/
def fillSeg (params : Rec) : Seg → Seg
  | .lit cs => .lit cs
  | .ph n =>
    match lookupByName params n with
    | some v => .lit (encodeURIComponentChars v.data)
    | none => .ph n

/-- Filling with no parameters changes nothing. -/
theorem map_fillSeg_nil (segs : List Seg) :
    segs.map (fillSeg []) = segs := by
  induction segs with
  | nil => rfl
  | cons s rest ih =>
    cases s <;> simp [fillSeg, lookupByName, ih]

/-- Filling ignores a parameter whose key names no placeholder. -/
theorem map_fillSeg_congr (k v : String) (rest : Rec) :
    ∀ segs : List Seg, (∀ n ∈ phNames segs, n ≠ k.data) →
    segs.map (fillSeg ((k, v) :: rest)) = segs.map (fillSeg rest) := by
  intro segs
  induction segs with
  | nil => intro _; rfl
  | cons s rest0 ih =>
    intro hne
    cases s with
    | lit cs =>
      show Seg.lit cs :: _ = Seg.lit cs :: _
      rw [ih fun n hn => hne n hn]
    | ph n =>
      have hnk : n ≠ k.data := hne n (List.mem_cons_self _ _)
      have hkn : k.data ≠ n := fun hc => hnk hc.symm
      have hrest : ∀ m ∈ phNames rest0, m ≠ k.data := fun m hm =>
        hne m (List.mem_cons_of_mem _ hm)
      show fillSeg ((k, v) :: rest) (.ph n) :: _ = fillSeg rest (.ph n) :: _
      rw [ih hrest]
      have hhead : fillSeg ((k, v) :: rest) (.ph n) = fillSeg rest (.ph n) := by
        simp [fillSeg, lookupByName, hkn]
      rw [hhead]

/-- One substitution step, pushed through the remaining fills: replacing the
unique `{k}` by the encoded `v` and then filling with the remaining
parameters is the same as filling with all of them. -/
theorem step_map_fillSeg (k v : String) (rest : Rec) :
    ∀ segs : List Seg, (phNames segs).Nodup →
    (if k.data ∈ phNames segs then
      replacePh segs k.data (encodeURIComponentChars v.data) else segs).map
        (fillSeg rest) =
      segs.map (fillSeg ((k, v) :: rest)) := by
  intro segs
  induction segs with
  | nil =>
    intro _
    rw [if_neg (show k.data ∉ phNames [] from List.not_mem_nil _)]
    rfl
  | cons s rest0 ih =>
    intro hnd
    cases s with
    | lit cs =>
      have hnd0 : (phNames rest0).Nodup := hnd
      have hstep : (if k.data ∈ phNames (Seg.lit cs :: rest0) then
          replacePh (Seg.lit cs :: rest0) k.data
            (encodeURIComponentChars v.data)
          else Seg.lit cs :: rest0) =
          Seg.lit cs :: (if k.data ∈ phNames rest0 then
            replacePh rest0 k.data (encodeURIComponentChars v.data)
            else rest0) := by
        by_cases hmem : k.data ∈ phNames rest0
        · rw [if_pos (show k.data ∈ phNames (Seg.lit cs :: rest0) from hmem),
            if_pos hmem]
          rfl
        · rw [if_neg (show k.data ∉ phNames (Seg.lit cs :: rest0) from hmem),
            if_neg hmem]
      rw [hstep]
      show Seg.lit cs :: _ = Seg.lit cs :: _
      rw [ih hnd0]
    | ph n =>
      have hnames : phNames (Seg.ph n :: rest0) = n :: phNames rest0 := rfl
      rw [hnames] at hnd
      have hnd0 : (phNames rest0).Nodup := (List.nodup_cons.mp hnd).2
      have hn0 : n ∉ phNames rest0 := (List.nodup_cons.mp hnd).1
      by_cases hnk : n = k.data
      · rw [if_pos (show k.data ∈ phNames (Seg.ph n :: rest0) by
          rw [hnames, ← hnk]; exact List.mem_cons_self _ _)]
        have hrepl : replacePh (Seg.ph n :: rest0) k.data
            (encodeURIComponentChars v.data) =
            Seg.lit (encodeURIComponentChars v.data) :: rest0 := by
          simp [replacePh, hnk]
        rw [hrepl]
        show Seg.lit (encodeURIComponentChars v.data) ::
            rest0.map (fillSeg rest) =
          fillSeg ((k, v) :: rest) (.ph n) ::
            rest0.map (fillSeg ((k, v) :: rest))
        rw [map_fillSeg_congr k v rest rest0
          (fun m hm hc => hn0 (by rw [hnk, ← hc]; exact hm))]
        have hhead : fillSeg ((k, v) :: rest) (.ph n) =
            Seg.lit (encodeURIComponentChars v.data) := by
          simp [fillSeg, lookupByName, hnk.symm]
        rw [hhead]
      · have hkn : k.data ≠ n := fun hc => hnk hc.symm
        have hstep : (if k.data ∈ phNames (Seg.ph n :: rest0) then
            replacePh (Seg.ph n :: rest0) k.data
              (encodeURIComponentChars v.data)
            else Seg.ph n :: rest0) =
            Seg.ph n :: (if k.data ∈ phNames rest0 then
              replacePh rest0 k.data (encodeURIComponentChars v.data)
              else rest0) := by
          by_cases hmem : k.data ∈ phNames rest0
          · rw [if_pos (show k.data ∈ phNames (Seg.ph n :: rest0) from
              List.mem_cons_of_mem _ hmem), if_pos hmem]
            simp [replacePh, hnk]
          · have hnot : k.data ∉ phNames (Seg.ph n :: rest0) := by
              rw [hnames]
              intro hc
              rcases List.mem_cons.mp hc with hc' | hc'
              · exact hkn hc'
              · exact hmem hc'
            rw [if_neg hnot, if_neg hmem]
        rw [hstep]
        show fillSeg rest (.ph n) :: _ = fillSeg ((k, v) :: rest) (.ph n) :: _
        rw [ih hnd0]
        have hhead : fillSeg ((k, v) :: rest) (.ph n) = fillSeg rest (.ph n) := by
          simp [fillSeg, lookupByName, hkn]
        rw [hhead]

/-- Under distinct placeholder names, the whole substitution fold is the
per-segment fill. -/
theorem applyParams_eq_map_fillSeg :
    ∀ (params : Rec) (segs : List Seg), (phNames segs).Nodup →
    applyParams segs params = segs.map (fillSeg params) := by
  intro params
  induction params with
  | nil =>
    intro segs _
    rw [map_fillSeg_nil]
    rfl
  | cons kv rest ih =>
    intro segs hnd
    obtain ⟨k, v⟩ := kv
    have happly : applyParams segs ((k, v) :: rest) =
        applyParams (if k.data ∈ phNames segs then
          replacePh segs k.data (encodeURIComponentChars v.data) else segs)
          rest := by
      simp [applyParams, List.foldl_cons]
    have hnd' : (phNames (if k.data ∈ phNames segs then
        replacePh segs k.data (encodeURIComponentChars v.data) else segs)).Nodup := by
      by_cases hmem : k.data ∈ phNames segs
      · rw [if_pos hmem, phNames_replacePh]
        exact hnd.erase _
      · rw [if_neg hmem]
        exact hnd
    rw [happly, ih _ hnd']
    exact step_map_fillSeg k v rest segs hnd

/-- A successful `buildPath` leaves no placeholder in the returned path. -/
theorem buildPath_ok_scan (path : String) (pp : Rec) (s : String)
    (h : buildPath path pp = .ok s) : scanPH s.data = [] := by
  unfold buildPath at h
  dsimp only at h
  rcases hs : scanPH (buildPathChars path.data pp) with _ | ⟨x, xs⟩
  · rw [hs] at h
    injection h with h'
    rw [← h']
    exact hs
  · rw [hs] at h
    cases h

/-- C2: over a well-formed path template with pairwise-distinct placeholder
names (and brace-free parameter keys): supplying a value for every
placeholder makes `buildPath` succeed with every placeholder replaced by the
URL-encoded (`encodeURIComponent`) parameter value and zero remaining
`{...}` matches; if some placeholder gets no value, `buildPath` fails with
`UnresolvedPathParameter` naming it; and `executeOperation` never hands the
HTTP client a path containing a `{...}` match. -/
theorem C2_path_template_substitution (segs : List Seg) (params : Rec)
    (hwf : ∀ s ∈ segs, SegWF s)
    (hnd : (phNames segs).Nodup)
    (hkeys : ∀ key ∈ rkeys params, braceFree key.data = true) :
    ((∀ n ∈ phNames segs, n ∈ keysChars params) →
      buildPath ⟨renderSegs segs⟩ params =
        .ok ⟨renderSegs (segs.map (fillSeg params))⟩ ∧
      scanPH (renderSegs (segs.map (fillSeg params))) = []) ∧
    (∀ n ∈ phNames segs, n ∉ keysChars params →
      ∃ ns, buildPath ⟨renderSegs segs⟩ params =
        .error (.unresolvedPathParameters ns) ∧ (⟨n⟩ : String) ∈ ns) ∧
    (∀ (spec : OpenAPISpec) (o : ExecuteAPIOptions) (cfg : RequestConfig),
      executeOperationCore spec o = .ok cfg → scanPH cfg.path.data = []) := by
  obtain ⟨hb, hwf', hnd', hnames'⟩ :=
    buildPathChars_renderSegs params segs hwf hnd hkeys
  have happmap := applyParams_eq_map_fillSeg params segs hnd
  have hscan0 : scanPH (buildPathChars (renderSegs segs) params) =
      (phNames segs).filter fun n => decide (n ∉ keysChars params) := by
    rw [hb, scanPH_renderSegs _ hwf', hnames']
  refine ⟨?_, ?_, ?_⟩
  · intro hcov
    have hfilter :
        ((phNames segs).filter fun n => decide (n ∉ keysChars params)) = [] := by
      rw [List.filter_eq_nil_iff]
      intro a ha
      simp [hcov a ha]
    have hscan : scanPH (buildPathChars (renderSegs segs) params) = [] := by
      rw [hscan0, hfilter]
    constructor
    · show buildPath ⟨renderSegs segs⟩ params = _
      unfold buildPath
      dsimp only
      rw [hscan, hb, happmap]
    · rw [← happmap, ← hb]
      exact hscan
  · intro n hn hnotin
    have hmem : n ∈ (phNames segs).filter fun m => decide (m ∉ keysChars params) :=
      List.mem_filter.mpr ⟨hn, by simp [hnotin]⟩
    refine ⟨((phNames segs).filter fun m => decide (m ∉ keysChars params)).map
      (fun m => (⟨m⟩ : String)), ?_, List.mem_map_of_mem _ hmem⟩
    show buildPath ⟨renderSegs segs⟩ params = _
    unfold buildPath
    dsimp only
    rw [hscan0]
    rcases hfil : (phNames segs).filter fun m => decide (m ∉ keysChars params)
      with _ | ⟨m, ms⟩
    · rw [hfil] at hmem
      exact absurd hmem (List.not_mem_nil _)
    · rfl
  · intro spec o cfg hcore
    unfold executeOperationCore at hcore
    rcases hres : resolveOperation spec o with e | ⟨op, m, p⟩ <;>
      simp only [hres] at hcore
    · cases hcore
    · rcases hrp : resolveParameters (op.parameters.getD []) o.pathParams
        o.queryParams o.headers with e | rp <;> simp only [hrp] at hcore
      · cases hcore
      · rcases hbp : buildPath p rp.pathParams with e | fp <;>
          simp only [hbp] at hcore
        · cases hcore
        · injection hcore with hcore'
          rw [← hcore']
          exact buildPath_ok_scan p rp.pathParams fp hbp

/-- The witness template `/o/{id}/x/{n}` as segments. -/
def segsW : List Seg :=
  [.lit "/o/".data, .ph "id".data, .lit "/x/".data, .ph "n".data]

/-- C2 witness: on `/o/{id}/x/{n}`, supplying both values yields the fully
substituted, URL-encoded path; omitting `n` yields the
`UnresolvedPathParameter` error naming `n`. -/
theorem C2_path_template_substitution_witness :
    buildPath "/o/\x7bid\x7d/x/\x7bn\x7d" [("id", "a b"), ("n", "2")] =
      .ok "/o/a%20b/x/2" ∧
    (∃ ns, buildPath "/o/\x7bid\x7d/x/\x7bn\x7d" [("id", "a b")] =
      .error (.unresolvedPathParameters ns) ∧ "n" ∈ ns) := by
  have hwfW : ∀ s ∈ segsW, SegWF s := by
    intro s hs
    fin_cases hs
    · show braceFree "/o/".data = true
      decide
    · exact ⟨by decide, by decide⟩
    · show braceFree "/x/".data = true
      decide
    · exact ⟨by decide, by decide⟩
  have h1 := (C2_path_template_substitution segsW [("id", "a b"), ("n", "2")]
    hwfW (by decide) (by decide)).1 (by decide)
  have h2 := (C2_path_template_substitution segsW [("id", "a b")]
    hwfW (by decide) (by decide)).2.1 "n".data (by decide) (by decide)
  constructor
  · exact h1.1
  · obtain ⟨ns, hns, hmem⟩ := h2
    exact ⟨ns, hns, hmem⟩

end VtexMcp
